import Mathlib

/-!
Verification of the monad-staking-indexer core against its specification.

The Rust sources are shallowly embedded: machine integers (`u64`, `u8`,
`U256`) become `Nat` with explicit checked/overflow behaviour where the
claims depend on it, `BigDecimal` values (always exact non-negative
integers or exact integers in this code base) become `Nat`/`Int`,
fallible code returns `Except`, and the Postgres tables touched by the
code become lists of rows inside a `DbState` record.  External crate
functions that the repository merely invokes (the alloy ABI decoders,
`hex::encode`) are embedded as explicit parameters or as small executable
functions, as noted at each definition.
-/

namespace MonadStakingIndexer

/-! ## Ranges and `chunk_range` (src/lib.rs) -/

/-- Rust's `std::ops::Range<u64>`: the half-open interval `[start, stop)`.
(The Rust field `end` is a Lean keyword, hence `stop`.) -/
structure RustRange where
  start : Nat
  stop : Nat
deriving DecidableEq, Repr

/-- The block numbers enumerated by a half-open range, in order. -/
def RustRange.toList (r : RustRange) : List Nat :=
  List.range' r.start (r.stop - r.start)

/-- Why a `u64` arithmetic step in `chunk_range` can abort at runtime:
`range.end - range.start` underflows when `end < start` (debug overflow
check), and `/ chunk_size` divides by zero when `chunk_size = 0`. -/
inductive ArithError where
  | underflow
  | divByZero
deriving DecidableEq, Repr

/-- Rust `u64` checked subtraction: `a - b` aborts when `b > a`. -/
def checkedSub (a b : Nat) : Except ArithError Nat :=
  if b ≤ a then .ok (a - b) else .error .underflow

/-- Rust `u64` division: `a / b` aborts when `b = 0`. -/
def checkedDiv (a b : Nat) : Except ArithError Nat :=
  if b = 0 then .error .divByZero else .ok (a / b)

/-- The `while chunk_start < range.end` loop of `chunk_range`
(src/lib.rs:33-37).  The loop body is transcribed verbatim; the extra
`fuel` argument only bounds the number of iterations so that the
definition is structurally recursive and kernel-reducible.  The loop is
reached only after the capacity division has ruled out `chunk_size = 0`,
and then each iteration advances `chunk_start` by at least one, so
`fuel = range.end - range.start` iterations always suffice. -/
def chunkLoop : Nat → Nat → Nat → Nat → List RustRange
  | 0, _, _, _ => []
  | fuel + 1, chunk_start, stop, chunk_size =>
    if chunk_start < stop then
      let chunk_end := min (chunk_start + chunk_size) stop
      ⟨chunk_start, chunk_end⟩ :: chunkLoop fuel chunk_end stop chunk_size
    else []

/-- `chunk_range(range, chunk_size)` from src/lib.rs:29-40.  The
function first computes the vector capacity
`(range.end - range.start) / chunk_size` with Rust `u64` arithmetic,
which aborts on underflow (`end < start`) or division by zero
(`chunk_size = 0`) before any chunk is produced; afterwards it runs the
chunking loop. -/
def chunk_range (range : RustRange) (chunk_size : Nat) :
    Except ArithError (List RustRange) := do
  let diff ← checkedSub range.stop range.start
  let _capacity ← checkedDiv diff chunk_size
  pure (chunkLoop (range.stop - range.start) range.start range.stop chunk_size)

/-- Modelled from the spec: the chunk list the specification describes,
`[a, a+k), [a+k, a+2k), …` with the final chunk truncated to `b` —
written down independently of the loop, to be compared with it. -/
def chunk_range_spec (a b k : Nat) : List RustRange :=
  (List.range ((b - a + k - 1) / k)).map fun i =>
    ⟨a + i * k, min (a + (i + 1) * k) b⟩

/-! ## The gap query (src/db/repository.rs, `get_block_gaps`) -/

/-- Insertion of one element into an ascending list (helper for the SQL
`ORDER BY block_number`). -/
def insertAsc (x : Nat) : List Nat → List Nat
  | [] => [x]
  | y :: ys => if x ≤ y then x :: y :: ys else y :: insertAsc x ys

/-- Ascending sort, modelling the window ordering `ORDER BY block_number`
of the gap query.  (`block_number` is the primary key of `blocks`, so the
input list is duplicate-free, but the model does not need to assume it.) -/
def sortAsc (l : List Nat) : List Nat :=
  l.foldr insertAsc []

/-- `get_block_gaps` (src/db/repository.rs:34-58).  The SQL computes, for
every stored block number and its successor in block-number order
(`LEAD`), `gap_start = block_number + 1` and `gap_end = LEAD - 1`, keeps
the rows with `gap_end ≥ gap_start`, and the Rust code then places the
two columns directly into `Range { start: gap_start, end: gap_end }`.
With natural-number subtraction, `next - 1 ≥ prev + 1` is equivalent to
the SQL's signed comparison because `prev + 1 ≥ 1`.  The input is the
`block_number` column of the `blocks` table. -/
def get_block_gaps (blocks : List Nat) : List RustRange :=
  let sorted := sortAsc blocks
  (sorted.zip sorted.tail).filterMap fun pn =>
    let gap_start := pn.1 + 1
    let gap_end := pn.2 - 1
    if gap_start ≤ gap_end then some ⟨gap_start, gap_end⟩ else none

/-! ## Events (src/events.rs) -/

/-- Lowercase hex digit, as produced by the external `hex` crate. -/
def hexChar (n : Nat) : Char :=
  if n < 10 then Char.ofNat (48 + n) else Char.ofNat (87 + n)

/-- `hex::encode` on a byte sequence (external crate, embedded directly):
two lowercase hex digits per byte, no `0x` prefix. -/
def hexEncode (bytes : List Nat) : String :=
  String.mk (bytes.flatMap fun b => [hexChar (b / 16), hexChar (b % 16)])

/-- The 32 big-endian bytes of a 256-bit word (alloy `B256`). -/
def bytes32BE (v : Nat) : List Nat :=
  (List.range 32).map fun i => v / 256 ^ (31 - i) % 256

/-- The 20 big-endian bytes of a 160-bit address (alloy `Address`). -/
def bytes20BE (v : Nat) : List Nat :=
  (List.range 20).map fun i => v / 256 ^ (19 - i) % 256

/-- `hex::encode` of an alloy 32-byte hash value. -/
def hexEncode32 (v : Nat) : String := hexEncode (bytes32BE v)

/-- `hex::encode` of an alloy 20-byte address value. -/
def hexEncode20 (v : Nat) : String := hexEncode (bytes20BE v)

/-- `u256_to_bigdecimal`'s first step (src/events.rs:12): alloy
`U256::as_le_bytes`, the 32 little-endian bytes of the value. -/
def as_le_bytes (v : Nat) : List Nat :=
  (List.range 32).map fun i => v / 256 ^ i % 256

/-- `u256_to_bigdecimal`'s second step (src/events.rs:13):
`BigInt::from_bytes_le(Sign::Plus, bytes)` reconstructs the value
`Σ bytes[i] * 256^i` of a little-endian byte sequence. -/
def from_bytes_le (bytes : List Nat) : Nat :=
  bytes.foldr (fun b acc => acc * 256 + b) 0

/-- `u256_to_bigdecimal` (src/events.rs:11-15): serialize the `U256` to
little-endian bytes, rebuild a non-negative `BigInt` from them, and wrap
it in a `BigDecimal` (an exact arbitrary-precision integer here, so an
`Int`). -/
def u256_to_bigdecimal (value : Nat) : Int :=
  Int.ofNat (from_bytes_le (as_le_bytes value))

/-- `BlockMeta` (src/events.rs:18-22).  The `BigDecimal` block number and
timestamp always hold exact `u64` values, hence `Nat`. -/
structure BlockMeta where
  block_number : Nat
  block_hash : String
  block_timestamp : Nat
deriving DecidableEq, Repr

/-- `TxMeta` (src/events.rs:25-28). -/
structure TxMeta where
  transaction_hash : String
  transaction_index : Nat
deriving DecidableEq, Repr

/-- `DelegateEvent` (src/events.rs:31-38). -/
structure DelegateEvent where
  val_id : Nat
  delegator : String
  amount : Int
  activation_epoch : Nat
  block_meta : BlockMeta
  tx_meta : TxMeta
deriving DecidableEq, Repr

/-- `UndelegateEvent` (src/events.rs:50-59); `withdrawal_id` is a `u8`
widened to `i16` by the decoder, hence a `Nat` below 256. -/
structure UndelegateEvent where
  val_id : Nat
  delegator : String
  withdrawal_id : Nat
  amount : Int
  activation_epoch : Nat
  block_meta : BlockMeta
  tx_meta : TxMeta
deriving DecidableEq, Repr

/-- `WithdrawEvent` (src/events.rs:71-80). -/
structure WithdrawEvent where
  val_id : Nat
  delegator : String
  withdrawal_id : Nat
  amount : Int
  activation_epoch : Nat
  block_meta : BlockMeta
  tx_meta : TxMeta
deriving DecidableEq, Repr

/-- `ClaimRewardsEvent` (src/events.rs:92-100). -/
structure ClaimRewardsEvent where
  val_id : Nat
  delegator : String
  amount : Int
  epoch : Nat
  block_meta : BlockMeta
  tx_meta : TxMeta
deriving DecidableEq, Repr

/-- `ValidatorRewardedEvent` (src/events.rs:112-120).  The Rust field
`from` is a Lean keyword; it is named here after its database column
`from_address`. -/
structure ValidatorRewardedEvent where
  validator_id : Nat
  from_address : String
  amount : Int
  epoch : Nat
  block_meta : BlockMeta
  tx_meta : TxMeta
deriving DecidableEq, Repr

/-- `EpochChangedEvent` (src/events.rs:132-138). -/
structure EpochChangedEvent where
  old_epoch : Nat
  new_epoch : Nat
  block_meta : BlockMeta
  tx_meta : TxMeta
deriving DecidableEq, Repr

/-- `ValidatorCreatedEvent` (src/events.rs:146-153). -/
structure ValidatorCreatedEvent where
  validator_id : Nat
  auth_address : String
  commission : Int
  block_meta : BlockMeta
  tx_meta : TxMeta
deriving DecidableEq, Repr

/-- `ValidatorStatusChangedEvent` (src/events.rs:165-171). -/
structure ValidatorStatusChangedEvent where
  validator_id : Nat
  flags : Nat
  block_meta : BlockMeta
  tx_meta : TxMeta
deriving DecidableEq, Repr

/-- `CommissionChangedEvent` (src/events.rs:183-190). -/
structure CommissionChangedEvent where
  validator_id : Nat
  old_commission : Int
  new_commission : Int
  block_meta : BlockMeta
  tx_meta : TxMeta
deriving DecidableEq, Repr

/-- `StakingEvent` (src/events.rs:202-213): the nine-variant sum. -/
inductive StakingEvent where
  | delegate : DelegateEvent → StakingEvent
  | undelegate : UndelegateEvent → StakingEvent
  | withdraw : WithdrawEvent → StakingEvent
  | claimRewards : ClaimRewardsEvent → StakingEvent
  | validatorRewarded : ValidatorRewardedEvent → StakingEvent
  | epochChanged : EpochChangedEvent → StakingEvent
  | validatorCreated : ValidatorCreatedEvent → StakingEvent
  | validatorStatusChanged : ValidatorStatusChangedEvent → StakingEvent
  | commissionChanged : CommissionChangedEvent → StakingEvent
deriving DecidableEq, Repr

/-- `StakingEvent::block_meta` (src/events.rs:232-245). -/
def StakingEvent.block_meta : StakingEvent → BlockMeta
  | .delegate e => e.block_meta
  | .undelegate e => e.block_meta
  | .withdraw e => e.block_meta
  | .claimRewards e => e.block_meta
  | .validatorRewarded e => e.block_meta
  | .epochChanged e => e.block_meta
  | .validatorCreated e => e.block_meta
  | .validatorStatusChanged e => e.block_meta
  | .commissionChanged e => e.block_meta

/-! ## The decoder `extract_event` (src/events.rs:247-390)

The nine `SIGNATURE_HASH` constants are keccak-256 hashes of the event
signatures computed by the external alloy `sol!` macro
(src/contract_abi.rs); only their pairwise distinctness and identity
matter to the code, so they are embedded as nine distinct 256-bit
stand-in values.  The per-variant `decode_log` ABI decoders are also
external alloy code; `extract_event` receives them as an explicit
`DecodeOracle` parameter whose functions may fail exactly as alloy's
decoders may. -/

def SIG_DELEGATE : Nat := 1
def SIG_UNDELEGATE : Nat := 2
def SIG_WITHDRAW : Nat := 3
def SIG_CLAIM_REWARDS : Nat := 4
def SIG_VALIDATOR_REWARDED : Nat := 5
def SIG_EPOCH_CHANGED : Nat := 6
def SIG_VALIDATOR_CREATED : Nat := 7
def SIG_VALIDATOR_STATUS_CHANGED : Nat := 8
def SIG_COMMISSION_CHANGED : Nat := 9

/-- The nine known signature hashes. -/
def knownSigs : List Nat :=
  [SIG_DELEGATE, SIG_UNDELEGATE, SIG_WITHDRAW, SIG_CLAIM_REWARDS,
   SIG_VALIDATOR_REWARDED, SIG_EPOCH_CHANGED, SIG_VALIDATOR_CREATED,
   SIG_VALIDATOR_STATUS_CHANGED, SIG_COMMISSION_CHANGED]

/-- An `alloy::rpc::types::Log`: the five optional envelope fields
`extract_event` demands, the topic list (`topic0()` is its head), and the
source address plus raw ABI payload that the decoders consume.  Hash and
address values are 256- or 160-bit words represented as `Nat`; the raw
payload is opaque to this repository's code and is represented by a
`Nat` blob that only the oracle interprets. -/
structure Log where
  block_number : Option Nat
  block_hash : Option Nat
  block_timestamp : Option Nat
  transaction_hash : Option Nat
  transaction_index : Option Nat
  topics : List Nat
  address : Nat
  data : Nat
deriving DecidableEq, Repr

/-- `log.topic0()`: the first topic, if any. -/
def Log.topic0 (log : Log) : Option Nat := log.topics.head?

/-- The `PrimitiveLog { address, data }` passed to the alloy decoders
(src/events.rs:279-282). -/
structure InnerLog where
  address : Nat
  data : Nat
deriving DecidableEq, Repr

/-- The decoded payload of a `Delegate` log (fields of alloy's generated
struct; `U256` amounts as `Nat` below `2^256`). -/
structure DelegatePayload where
  valId : Nat
  delegator : Nat
  amount : Nat
  activationEpoch : Nat
deriving DecidableEq, Repr

structure UndelegatePayload where
  valId : Nat
  delegator : Nat
  withdrawal_id : Nat
  amount : Nat
  activationEpoch : Nat
deriving DecidableEq, Repr

structure WithdrawPayload where
  valId : Nat
  delegator : Nat
  withdrawal_id : Nat
  amount : Nat
  activationEpoch : Nat
deriving DecidableEq, Repr

structure ClaimRewardsPayload where
  valId : Nat
  delegator : Nat
  amount : Nat
  epoch : Nat
deriving DecidableEq, Repr

structure ValidatorRewardedPayload where
  validatorId : Nat
  from_address : Nat
  amount : Nat
  epoch : Nat
deriving DecidableEq, Repr

structure EpochChangedPayload where
  oldEpoch : Nat
  newEpoch : Nat
deriving DecidableEq, Repr

structure ValidatorCreatedPayload where
  validatorId : Nat
  authAddress : Nat
  commission : Nat
deriving DecidableEq, Repr

structure ValidatorStatusChangedPayload where
  validatorId : Nat
  flags : Nat
deriving DecidableEq, Repr

structure CommissionChangedPayload where
  validatorId : Nat
  oldCommission : Nat
  newCommission : Nat
deriving DecidableEq, Repr

/-- The external alloy `decode_log` functions, one per event, each free
to fail with a decode error exactly where alloy's may. -/
structure DecodeOracle where
  delegate : InnerLog → Except String DelegatePayload
  undelegate : InnerLog → Except String UndelegatePayload
  withdraw : InnerLog → Except String WithdrawPayload
  claimRewards : InnerLog → Except String ClaimRewardsPayload
  validatorRewarded : InnerLog → Except String ValidatorRewardedPayload
  epochChanged : InnerLog → Except String EpochChangedPayload
  validatorCreated : InnerLog → Except String ValidatorCreatedPayload
  validatorStatusChanged : InnerLog → Except String ValidatorStatusChangedPayload
  commissionChanged : InnerLog → Except String CommissionChangedPayload

/-- `extract_event` (src/events.rs:247-390), transcribed clause by
clause: the five envelope fields are demanded first (each missing field
is its own decode error), an absent `topic0` yields `Ok(None)`, then the
match on `topic0` dispatches to the per-variant decoder — any hash other
than the nine known ones falls through to `Ok(None)`. -/
def extract_event (dec : DecodeOracle) (log : Log) :
    Except String (Option StakingEvent) :=
  match log.block_number with
  | none => .error "Missing block number"
  | some block_number =>
  match log.block_hash with
  | none => .error "Missing block hash"
  | some block_hash =>
  match log.block_timestamp with
  | none => .error "Missing block timestamp"
  | some block_timestamp =>
  match log.transaction_hash with
  | none => .error "Missing transaction hash"
  | some transaction_hash =>
  match log.transaction_index with
  | none => .error "Missing transaction index"
  | some transaction_index =>
  match log.topic0 with
  | none => .ok none
  | some topic0 =>
    let block_meta : BlockMeta :=
      { block_number := block_number
        block_hash := hexEncode32 block_hash
        block_timestamp := block_timestamp }
    let tx_meta : TxMeta :=
      { transaction_hash := hexEncode32 transaction_hash
        transaction_index := transaction_index }
    let inner_log : InnerLog := { address := log.address, data := log.data }
    if topic0 = SIG_DELEGATE then
      match dec.delegate inner_log with
      | .error e => .error e
      | .ok decoded => .ok (some (.delegate
        { val_id := decoded.valId
          delegator := hexEncode20 decoded.delegator
          amount := u256_to_bigdecimal decoded.amount
          activation_epoch := decoded.activationEpoch
          block_meta, tx_meta }))
    else if topic0 = SIG_UNDELEGATE then
      match dec.undelegate inner_log with
      | .error e => .error e
      | .ok decoded => .ok (some (.undelegate
        { val_id := decoded.valId
          delegator := hexEncode20 decoded.delegator
          withdrawal_id := decoded.withdrawal_id
          amount := u256_to_bigdecimal decoded.amount
          activation_epoch := decoded.activationEpoch
          block_meta, tx_meta }))
    else if topic0 = SIG_WITHDRAW then
      match dec.withdraw inner_log with
      | .error e => .error e
      | .ok decoded => .ok (some (.withdraw
        { val_id := decoded.valId
          delegator := hexEncode20 decoded.delegator
          withdrawal_id := decoded.withdrawal_id
          amount := u256_to_bigdecimal decoded.amount
          activation_epoch := decoded.activationEpoch
          block_meta, tx_meta }))
    else if topic0 = SIG_CLAIM_REWARDS then
      match dec.claimRewards inner_log with
      | .error e => .error e
      | .ok decoded => .ok (some (.claimRewards
        { val_id := decoded.valId
          delegator := hexEncode20 decoded.delegator
          amount := u256_to_bigdecimal decoded.amount
          epoch := decoded.epoch
          block_meta, tx_meta }))
    else if topic0 = SIG_VALIDATOR_REWARDED then
      match dec.validatorRewarded inner_log with
      | .error e => .error e
      | .ok decoded => .ok (some (.validatorRewarded
        { validator_id := decoded.validatorId
          from_address := hexEncode20 decoded.from_address
          amount := u256_to_bigdecimal decoded.amount
          epoch := decoded.epoch
          block_meta, tx_meta }))
    else if topic0 = SIG_EPOCH_CHANGED then
      match dec.epochChanged inner_log with
      | .error e => .error e
      | .ok decoded => .ok (some (.epochChanged
        { old_epoch := decoded.oldEpoch
          new_epoch := decoded.newEpoch
          block_meta, tx_meta }))
    else if topic0 = SIG_VALIDATOR_CREATED then
      match dec.validatorCreated inner_log with
      | .error e => .error e
      | .ok decoded => .ok (some (.validatorCreated
        { validator_id := decoded.validatorId
          auth_address := hexEncode20 decoded.authAddress
          commission := u256_to_bigdecimal decoded.commission
          block_meta, tx_meta }))
    else if topic0 = SIG_VALIDATOR_STATUS_CHANGED then
      match dec.validatorStatusChanged inner_log with
      | .error e => .error e
      | .ok decoded => .ok (some (.validatorStatusChanged
        { validator_id := decoded.validatorId
          flags := decoded.flags
          block_meta, tx_meta }))
    else if topic0 = SIG_COMMISSION_CHANGED then
      match dec.commissionChanged inner_log with
      | .error e => .error e
      | .ok decoded => .ok (some (.commissionChanged
        { validator_id := decoded.validatorId
          old_commission := u256_to_bigdecimal decoded.oldCommission
          new_commission := u256_to_bigdecimal decoded.newCommission
          block_meta, tx_meta }))
    else
      .ok none

/-! ## `BlockBatch` (src/lib.rs:48-95) -/

/-- `BlockBatch`: the staged block metas plus one vector per variant. -/
structure BlockBatch where
  block_meta : List BlockMeta := []
  delegate : List DelegateEvent := []
  undelegate : List UndelegateEvent := []
  withdraw : List WithdrawEvent := []
  claim_rewards : List ClaimRewardsEvent := []
  validator_rewarded : List ValidatorRewardedEvent := []
  epoch_changed : List EpochChangedEvent := []
  validator_created : List ValidatorCreatedEvent := []
  validator_status_changed : List ValidatorStatusChangedEvent := []
  commission_changed : List CommissionChangedEvent := []
deriving DecidableEq, Repr

/-- `BlockBatch::new` (src/lib.rs:63-76). -/
def BlockBatch.new : BlockBatch := {}

/-- `BlockBatch::add_event` (src/lib.rs:78-90): push the event into its
variant's vector. -/
def BlockBatch.add_event (b : BlockBatch) : StakingEvent → BlockBatch
  | .delegate e => { b with delegate := b.delegate ++ [e] }
  | .undelegate e => { b with undelegate := b.undelegate ++ [e] }
  | .withdraw e => { b with withdraw := b.withdraw ++ [e] }
  | .claimRewards e => { b with claim_rewards := b.claim_rewards ++ [e] }
  | .validatorRewarded e =>
    { b with validator_rewarded := b.validator_rewarded ++ [e] }
  | .epochChanged e => { b with epoch_changed := b.epoch_changed ++ [e] }
  | .validatorCreated e =>
    { b with validator_created := b.validator_created ++ [e] }
  | .validatorStatusChanged e =>
    { b with validator_status_changed := b.validator_status_changed ++ [e] }
  | .commissionChanged e =>
    { b with commission_changed := b.commission_changed ++ [e] }

/-- `BlockBatch::add_block_meta` (src/lib.rs:92-94). -/
def BlockBatch.add_block_meta (b : BlockBatch) (meta : BlockMeta) : BlockBatch :=
  { b with block_meta := b.block_meta ++ [meta] }

/-! ## The database writer (src/db/repository_batch.rs, src/db/repository.rs)

A table is a list of rows; `upsertRows key table rows` models a
(multi-row) `INSERT … ON CONFLICT (key) DO NOTHING`: rows are attempted
in order, a row whose key already occurs in the table — including a key
inserted by an earlier row of the same statement — is skipped, and the
second component counts the inserted rows (`rows_affected`). -/

/-- One attempted row of an `INSERT … ON CONFLICT (key) DO NOTHING`:
skip if the key is already taken, else append and count. -/
def upsertStep {α κ : Type} [DecidableEq κ] (key : α → κ)
    (acc : List α × Nat) (e : α) : List α × Nat :=
  if (acc.1.map key).contains (key e) then acc
  else (acc.1 ++ [e], acc.2 + 1)

def upsertRows {α κ : Type} [DecidableEq κ] (key : α → κ)
    (table : List α) (rows : List α) : List α × Nat :=
  rows.foldl (upsertStep key) (table, 0)

/-! Conflict keys of the batch path, exactly as the `ON CONFLICT (…)`
clauses of src/db/repository_batch.rs name them. -/

/-- `ON CONFLICT (val_id, transaction_hash)` (repository_batch.rs:30). -/
def delegateBatchKey (e : DelegateEvent) : Nat × String :=
  (e.val_id, e.tx_meta.transaction_hash)

/-- `ON CONFLICT (val_id, transaction_hash)` (repository_batch.rs:61). -/
def undelegateBatchKey (e : UndelegateEvent) : Nat × String :=
  (e.val_id, e.tx_meta.transaction_hash)

/-- `ON CONFLICT (val_id, transaction_hash)` (repository_batch.rs:92). -/
def withdrawBatchKey (e : WithdrawEvent) : Nat × String :=
  (e.val_id, e.tx_meta.transaction_hash)

/-- `ON CONFLICT (val_id, transaction_hash)` (repository_batch.rs:122). -/
def claimRewardsBatchKey (e : ClaimRewardsEvent) : Nat × String :=
  (e.val_id, e.tx_meta.transaction_hash)

/-- `ON CONFLICT (transaction_hash)` (repository_batch.rs:152). -/
def validatorRewardedBatchKey (e : ValidatorRewardedEvent) : String :=
  e.tx_meta.transaction_hash

/-- `ON CONFLICT (transaction_hash)` (repository_batch.rs:180). -/
def epochChangedBatchKey (e : EpochChangedEvent) : String :=
  e.tx_meta.transaction_hash

/-- `ON CONFLICT (transaction_hash)` (repository_batch.rs:209). -/
def validatorCreatedBatchKey (e : ValidatorCreatedEvent) : String :=
  e.tx_meta.transaction_hash

/-- `ON CONFLICT (validator_id, transaction_hash)`
(repository_batch.rs:237). -/
def validatorStatusChangedBatchKey (e : ValidatorStatusChangedEvent) :
    Nat × String :=
  (e.validator_id, e.tx_meta.transaction_hash)

/-- `ON CONFLICT (validator_id, transaction_hash)`
(repository_batch.rs:266). -/
def commissionChangedBatchKey (e : CommissionChangedEvent) : Nat × String :=
  (e.validator_id, e.tx_meta.transaction_hash)

/-- `ON CONFLICT (block_number)` for the `blocks` table
(repository_batch.rs:290, repository.rs:14). -/
def blockKey (m : BlockMeta) : Nat := m.block_number

/-! The per-variant batch inserts `insert_*_events_in_tx`
(repository_batch.rs:7-271).  Each returns the updated table,
`rows_affected` and the submitted total; the source's early return for an
empty slice coincides with the fold over no rows. -/

def insert_delegate_events_in_tx (table : List DelegateEvent)
    (events : List DelegateEvent) : List DelegateEvent × Nat × Nat :=
  let r := upsertRows delegateBatchKey table events
  (r.1, r.2, events.length)

def insert_undelegate_events_in_tx (table : List UndelegateEvent)
    (events : List UndelegateEvent) : List UndelegateEvent × Nat × Nat :=
  let r := upsertRows undelegateBatchKey table events
  (r.1, r.2, events.length)

def insert_withdraw_events_in_tx (table : List WithdrawEvent)
    (events : List WithdrawEvent) : List WithdrawEvent × Nat × Nat :=
  let r := upsertRows withdrawBatchKey table events
  (r.1, r.2, events.length)

def insert_claim_rewards_events_in_tx (table : List ClaimRewardsEvent)
    (events : List ClaimRewardsEvent) : List ClaimRewardsEvent × Nat × Nat :=
  let r := upsertRows claimRewardsBatchKey table events
  (r.1, r.2, events.length)

def insert_validator_rewarded_events_in_tx (table : List ValidatorRewardedEvent)
    (events : List ValidatorRewardedEvent) :
    List ValidatorRewardedEvent × Nat × Nat :=
  let r := upsertRows validatorRewardedBatchKey table events
  (r.1, r.2, events.length)

def insert_epoch_changed_events_in_tx (table : List EpochChangedEvent)
    (events : List EpochChangedEvent) : List EpochChangedEvent × Nat × Nat :=
  let r := upsertRows epochChangedBatchKey table events
  (r.1, r.2, events.length)

def insert_validator_created_events_in_tx (table : List ValidatorCreatedEvent)
    (events : List ValidatorCreatedEvent) :
    List ValidatorCreatedEvent × Nat × Nat :=
  let r := upsertRows validatorCreatedBatchKey table events
  (r.1, r.2, events.length)

def insert_validator_status_changed_events_in_tx
    (table : List ValidatorStatusChangedEvent)
    (events : List ValidatorStatusChangedEvent) :
    List ValidatorStatusChangedEvent × Nat × Nat :=
  let r := upsertRows validatorStatusChangedBatchKey table events
  (r.1, r.2, events.length)

def insert_commission_changed_events_in_tx
    (table : List CommissionChangedEvent)
    (events : List CommissionChangedEvent) :
    List CommissionChangedEvent × Nat × Nat :=
  let r := upsertRows commissionChangedBatchKey table events
  (r.1, r.2, events.length)

/-- `insert_blocks_in_tx` (repository_batch.rs:273-295):
`ON CONFLICT (block_number) DO NOTHING` over the block metas. -/
def insert_blocks_in_tx (table : List BlockMeta) (blocks : List BlockMeta) :
    List BlockMeta × Nat :=
  upsertRows blockKey table blocks

/-- The ten tables the writer touches. -/
structure DbState where
  delegate_events : List DelegateEvent := []
  undelegate_events : List UndelegateEvent := []
  withdraw_events : List WithdrawEvent := []
  claim_rewards_events : List ClaimRewardsEvent := []
  validator_rewarded_events : List ValidatorRewardedEvent := []
  epoch_changed_events : List EpochChangedEvent := []
  validator_created_events : List ValidatorCreatedEvent := []
  validator_status_changed_events : List ValidatorStatusChangedEvent := []
  commission_changed_events : List CommissionChangedEvent := []
  blocks : List BlockMeta := []
deriving DecidableEq, Repr

/-- The `(rows_affected, total)` pair per variant that
`insert_many_blocks_inner` returns (its `HashMap` keyed by the nine
`StakingEventType`s, as a record). -/
structure InsertCounts where
  delegate : Nat × Nat := (0, 0)
  undelegate : Nat × Nat := (0, 0)
  withdraw : Nat × Nat := (0, 0)
  claim_rewards : Nat × Nat := (0, 0)
  validator_rewarded : Nat × Nat := (0, 0)
  epoch_changed : Nat × Nat := (0, 0)
  validator_created : Nat × Nat := (0, 0)
  validator_status_changed : Nat × Nat := (0, 0)
  commission_changed : Nat × Nat := (0, 0)
deriving DecidableEq, Repr

/-- `insert_many_blocks_inner` (repository_batch.rs:297-356): on an empty
`block_meta` list, return immediately with an empty result map; otherwise
run the nine per-variant inserts in the source's order, then the block
insert, inside one transaction, and commit. -/
def insert_many_blocks_inner (st : DbState) (batch : BlockBatch) :
    DbState × InsertCounts :=
  if batch.block_meta.isEmpty then (st, {})
  else
    let rDel := insert_delegate_events_in_tx st.delegate_events batch.delegate
    let rUnd := insert_undelegate_events_in_tx st.undelegate_events batch.undelegate
    let rWit := insert_withdraw_events_in_tx st.withdraw_events batch.withdraw
    let rCla := insert_claim_rewards_events_in_tx st.claim_rewards_events
      batch.claim_rewards
    let rRew := insert_validator_rewarded_events_in_tx
      st.validator_rewarded_events batch.validator_rewarded
    let rEpo := insert_epoch_changed_events_in_tx st.epoch_changed_events
      batch.epoch_changed
    let rCre := insert_validator_created_events_in_tx
      st.validator_created_events batch.validator_created
    let rSta := insert_validator_status_changed_events_in_tx
      st.validator_status_changed_events batch.validator_status_changed
    let rCom := insert_commission_changed_events_in_tx
      st.commission_changed_events batch.commission_changed
    let rBlk := insert_blocks_in_tx st.blocks batch.block_meta
    ({ delegate_events := rDel.1
       undelegate_events := rUnd.1
       withdraw_events := rWit.1
       claim_rewards_events := rCla.1
       validator_rewarded_events := rRew.1
       epoch_changed_events := rEpo.1
       validator_created_events := rCre.1
       validator_status_changed_events := rSta.1
       commission_changed_events := rCom.1
       blocks := rBlk.1 },
     { delegate := rDel.2
       undelegate := rUnd.2
       withdraw := rWit.2
       claim_rewards := rCla.2
       validator_rewarded := rRew.2
       epoch_changed := rEpo.2
       validator_created := rCre.2
       validator_status_changed := rSta.2
       commission_changed := rCom.2 })

/-- The store-side error type surfaced by the writer: a timeout is mapped
to `DbError::Sqlx(sqlx::Error::PoolTimedOut)` (repository_batch.rs:365). -/
inductive DbError where
  | poolTimedOut
deriving DecidableEq, Repr

/-- Whether the `tokio::time::timeout` wrapper around the transaction let
it commit, or cancelled it (upon which Postgres rolls the open
transaction back, leaving the store untouched). -/
inductive TxOutcome where
  | commit
  | timeout
deriving DecidableEq, Repr

/-- `insert_blocks` (repository_batch.rs:358-366): run the transactional
insert under a timeout; a timed-out transaction is rolled back and
reported as `PoolTimedOut`. -/
def insert_blocks (st : DbState) (batch : BlockBatch) (outcome : TxOutcome) :
    DbState × Except DbError InsertCounts :=
  match outcome with
  | .commit =>
    let r := insert_many_blocks_inner st batch
    (r.1, .ok r.2)
  | .timeout => (st, .error .poolTimedOut)

/-! The single-row insert path of src/db/repository.rs:60-343: each
`insert_<variant>_event` issues one `INSERT … ON CONFLICT
(transaction_hash) DO NOTHING` directly on the pool — note the key is
`transaction_hash` alone for every one of the nine variants on this
path.  Each returns the updated table and `rows_affected`. -/

/-- `insert_delegate_event` (repository.rs:60-85),
`ON CONFLICT (transaction_hash)` (repository.rs:67). -/
def insert_delegate_event (table : List DelegateEvent) (event : DelegateEvent) :
    List DelegateEvent × Nat :=
  upsertRows (fun e => e.tx_meta.transaction_hash) table [event]

/-- `insert_undelegate_event` (repository.rs:87-113),
`ON CONFLICT (transaction_hash)` (repository.rs:94). -/
def insert_undelegate_event (table : List UndelegateEvent)
    (event : UndelegateEvent) : List UndelegateEvent × Nat :=
  upsertRows (fun e => e.tx_meta.transaction_hash) table [event]

/-- `insert_withdraw_event` (repository.rs:115-141),
`ON CONFLICT (transaction_hash)` (repository.rs:122). -/
def insert_withdraw_event (table : List WithdrawEvent) (event : WithdrawEvent) :
    List WithdrawEvent × Nat :=
  upsertRows (fun e => e.tx_meta.transaction_hash) table [event]

/-- `insert_claim_rewards_event` (repository.rs:143-171),
`ON CONFLICT (transaction_hash)` (repository.rs:153). -/
def insert_claim_rewards_event (table : List ClaimRewardsEvent)
    (event : ClaimRewardsEvent) : List ClaimRewardsEvent × Nat :=
  upsertRows (fun e => e.tx_meta.transaction_hash) table [event]

/-- `insert_validator_rewarded_event` (repository.rs:173-201),
`ON CONFLICT (transaction_hash)` (repository.rs:183). -/
def insert_validator_rewarded_event (table : List ValidatorRewardedEvent)
    (event : ValidatorRewardedEvent) : List ValidatorRewardedEvent × Nat :=
  upsertRows (fun e => e.tx_meta.transaction_hash) table [event]

/-- `insert_epoch_changed_event` (repository.rs:203-229),
`ON CONFLICT (transaction_hash)` (repository.rs:213). -/
def insert_epoch_changed_event (table : List EpochChangedEvent)
    (event : EpochChangedEvent) : List EpochChangedEvent × Nat :=
  upsertRows (fun e => e.tx_meta.transaction_hash) table [event]

/-- `insert_validator_created_event` (repository.rs:231-258),
`ON CONFLICT (transaction_hash)` (repository.rs:241). -/
def insert_validator_created_event (table : List ValidatorCreatedEvent)
    (event : ValidatorCreatedEvent) : List ValidatorCreatedEvent × Nat :=
  upsertRows (fun e => e.tx_meta.transaction_hash) table [event]

/-- `insert_validator_status_changed_event` (repository.rs:260-286),
`ON CONFLICT (transaction_hash)` (repository.rs:270). -/
def insert_validator_status_changed_event
    (table : List ValidatorStatusChangedEvent)
    (event : ValidatorStatusChangedEvent) :
    List ValidatorStatusChangedEvent × Nat :=
  upsertRows (fun e => e.tx_meta.transaction_hash) table [event]

/-- `insert_commission_changed_event` (repository.rs:288-315),
`ON CONFLICT (transaction_hash)` (repository.rs:298). -/
def insert_commission_changed_event (table : List CommissionChangedEvent)
    (event : CommissionChangedEvent) : List CommissionChangedEvent × Nat :=
  upsertRows (fun e => e.tx_meta.transaction_hash) table [event]

/-! ## The transaction as an operation sequence

To state in what order the transaction of `insert_many_blocks_inner`
touches the store, its body is also rendered as the list of single-row
operations it performs, in the source's statement order; a refinement
lemma below shows that folding these operations over the state yields
exactly the committed state. -/

/-- One row-level operation of the transaction: an event insert or a
block insert. -/
inductive TxOp where
  | ev : StakingEvent → TxOp
  | blk : BlockMeta → TxOp
deriving DecidableEq, Repr

/-- Whether an operation inserts an event row (as opposed to a block
row). -/
def TxOp.isEv : TxOp → Bool
  | .ev _ => true
  | .blk _ => false

/-- The event-row operations of the transaction, in the order
`insert_many_blocks_inner` issues them (delegate first,
commission-changed last). -/
def txEventOps (b : BlockBatch) : List TxOp :=
  b.delegate.map (fun e => .ev (.delegate e)) ++
  b.undelegate.map (fun e => .ev (.undelegate e)) ++
  b.withdraw.map (fun e => .ev (.withdraw e)) ++
  b.claim_rewards.map (fun e => .ev (.claimRewards e)) ++
  b.validator_rewarded.map (fun e => .ev (.validatorRewarded e)) ++
  b.epoch_changed.map (fun e => .ev (.epochChanged e)) ++
  b.validator_created.map (fun e => .ev (.validatorCreated e)) ++
  b.validator_status_changed.map (fun e => .ev (.validatorStatusChanged e)) ++
  b.commission_changed.map (fun e => .ev (.commissionChanged e))

/-- All row-level operations of the transaction, in order: every event
row first, then the block rows. -/
def txOps (b : BlockBatch) : List TxOp :=
  txEventOps b ++ b.block_meta.map TxOp.blk

/-- Apply one row-level operation to the store: a conflict-checked insert
into the operation's table, with the batch path's conflict key. -/
def applyOp (st : DbState) : TxOp → DbState
  | .ev (.delegate e) =>
    { st with delegate_events := (insert_delegate_events_in_tx st.delegate_events [e]).1 }
  | .ev (.undelegate e) =>
    { st with undelegate_events := (insert_undelegate_events_in_tx st.undelegate_events [e]).1 }
  | .ev (.withdraw e) =>
    { st with withdraw_events := (insert_withdraw_events_in_tx st.withdraw_events [e]).1 }
  | .ev (.claimRewards e) =>
    { st with claim_rewards_events := (insert_claim_rewards_events_in_tx st.claim_rewards_events [e]).1 }
  | .ev (.validatorRewarded e) =>
    { st with validator_rewarded_events := (insert_validator_rewarded_events_in_tx st.validator_rewarded_events [e]).1 }
  | .ev (.epochChanged e) =>
    { st with epoch_changed_events := (insert_epoch_changed_events_in_tx st.epoch_changed_events [e]).1 }
  | .ev (.validatorCreated e) =>
    { st with validator_created_events := (insert_validator_created_events_in_tx st.validator_created_events [e]).1 }
  | .ev (.validatorStatusChanged e) =>
    { st with validator_status_changed_events := (insert_validator_status_changed_events_in_tx st.validator_status_changed_events [e]).1 }
  | .ev (.commissionChanged e) =>
    { st with commission_changed_events := (insert_commission_changed_events_in_tx st.commission_changed_events [e]).1 }
  | .blk m =>
    { st with blocks := (insert_blocks_in_tx st.blocks [m]).1 }

/-- The per-variant `(rows_affected, total)` map produced when a batch is
re-submitted in full: nothing inserted, every row a duplicate. -/
def zeroInsertedCounts (b : BlockBatch) : InsertCounts :=
  { delegate := (0, b.delegate.length)
    undelegate := (0, b.undelegate.length)
    withdraw := (0, b.withdraw.length)
    claim_rewards := (0, b.claim_rewards.length)
    validator_rewarded := (0, b.validator_rewarded.length)
    epoch_changed := (0, b.epoch_changed.length)
    validator_created := (0, b.validator_created.length)
    validator_status_changed := (0, b.validator_status_changed.length)
    commission_changed := (0, b.commission_changed.length) }

/-! ## The live ingestor `process_live_blocks` (src/main.rs:170-256)

The task's mutable state — `current_block_buffer`, `current_block_meta`,
`batch`, `block_count`, `start_block` — is declared before the outer
reconnection loop, so it persists across stream sessions.  A run is
modelled as a function of the successive stream sessions (each session
being the list of logs delivered before the stream terminated); network
acquisition and the end-of-session `RpcTimeout` metric have no effect on
this state or on the data sent onward. -/

/-- The mutable state of `process_live_blocks` (src/main.rs:171-182). -/
structure LiveState where
  current_block_buffer : List StakingEvent := []
  current_block_meta : Option BlockMeta := none
  batch : BlockBatch := {}
  block_count : Nat := 0
  start_block : Option Nat := none
deriving DecidableEq, Repr

/-- What the task pushes onto its outgoing channels: `InsertBatch`
requests to the DbWriter (`tx`) and startup ranges to the gap queue
(`gap_tx`), in order. -/
structure LiveOutputs where
  sent : List BlockBatch := []
  gaps : List RustRange := []
deriving DecidableEq, Repr

/-- The body of the per-event handler (src/main.rs:214-244): startup-gap
check and latch, seal of the previous block when the block number
changes, recording of the event, and batch handoff once `block_count`
reaches `batch_size`. -/
def stepEvent (batch_size : Nat) (acc : LiveState × LiveOutputs)
    (event : StakingEvent) : LiveState × LiveOutputs :=
  let st := acc.1
  let out := acc.2
  let event_block_num := event.block_meta.block_number
  let gaps :=
    match st.start_block with
    | some start =>
      if start < event_block_num then out.gaps ++ [⟨start, event_block_num⟩]
      else out.gaps
    | none => out.gaps
  let sealed :=
    match st.current_block_meta with
    | some meta =>
      if meta.block_number ≠ event_block_num then
        let b := st.current_block_buffer.foldl BlockBatch.add_event
          (st.batch.add_block_meta meta)
        (b, st.block_count + 1, ([] : List StakingEvent))
      else (st.batch, st.block_count, st.current_block_buffer)
    | none => (st.batch, st.block_count, st.current_block_buffer)
  let batch := sealed.1
  let block_count := sealed.2.1
  let buffer := sealed.2.2 ++ [event]
  if batch_size ≤ block_count then
    ({ current_block_buffer := buffer
       current_block_meta := some event.block_meta
       batch := BlockBatch.new
       block_count := 0
       start_block := none },
     { sent := out.sent ++ [batch], gaps })
  else
    ({ current_block_buffer := buffer
       current_block_meta := some event.block_meta
       batch := batch
       block_count := block_count
       start_block := none },
     { sent := out.sent, gaps })

/-- One delivered log (src/main.rs:212-250): decoded events are handled,
`Ok(None)` logs and decode errors are skipped. -/
def stepLog (dec : DecodeOracle) (batch_size : Nat)
    (acc : LiveState × LiveOutputs) (log : Log) : LiveState × LiveOutputs :=
  match extract_event dec log with
  | .ok (some event) => stepEvent batch_size acc event
  | .ok none => acc
  | .error _ => acc

/-- One stream session: the inner `while let Some(log) = …` loop
(src/main.rs:212-251). -/
def runSession (dec : DecodeOracle) (batch_size : Nat)
    (acc : LiveState × LiveOutputs) (logs : List Log) :
    LiveState × LiveOutputs :=
  logs.foldl (stepLog dec batch_size) acc

/-- `process_live_blocks` over a whole run: the outer reconnection loop
carries the state from each terminated session into the next one
unchanged (src/main.rs:186-255). -/
def process_live_blocks (dec : DecodeOracle) (batch_size : Nat)
    (start_block : Option Nat) (sessions : List (List Log)) :
    LiveState × LiveOutputs :=
  sessions.foldl (runSession dec batch_size)
    ({ start_block := start_block }, {})

/-- The event a delivered log contributes, if any: decode errors and
unrecognized logs contribute nothing (src/main.rs:246-249). -/
def extractedEvent (dec : DecodeOracle) (log : Log) : Option StakingEvent :=
  match extract_event dec log with
  | .ok (some event) => some event
  | _ => none

/-- The events a run decodes, in delivery order (the `Ok(Some(event))`
cases across all sessions). -/
def decodedEvents (dec : DecodeOracle) (sessions : List (List Log)) :
    List StakingEvent :=
  sessions.flatten.filterMap (extractedEvent dec)

/-- Whether a batch carries a given event in its variant's vector. -/
def BlockBatch.containsEvent (b : BlockBatch) : StakingEvent → Bool
  | .delegate e => b.delegate.contains e
  | .undelegate e => b.undelegate.contains e
  | .withdraw e => b.withdraw.contains e
  | .claimRewards e => b.claim_rewards.contains e
  | .validatorRewarded e => b.validator_rewarded.contains e
  | .epochChanged e => b.epoch_changed.contains e
  | .validatorCreated e => b.validator_created.contains e
  | .validatorStatusChanged e => b.validator_status_changed.contains e
  | .commissionChanged e => b.commission_changed.contains e

/-! ## Concrete sample inputs

Closed instances of oracles, logs, events and batches, used to evaluate
the verified statements on concrete data. -/

/-- An oracle whose every ABI decoder fails, exercising alloy's decode
errors. -/
def failOracle : DecodeOracle where
  delegate := fun _ => .error "decode error"
  undelegate := fun _ => .error "decode error"
  withdraw := fun _ => .error "decode error"
  claimRewards := fun _ => .error "decode error"
  validatorRewarded := fun _ => .error "decode error"
  epochChanged := fun _ => .error "decode error"
  validatorCreated := fun _ => .error "decode error"
  validatorStatusChanged := fun _ => .error "decode error"
  commissionChanged := fun _ => .error "decode error"

/-- An oracle returning a fixed well-formed payload per variant. -/
def okOracle : DecodeOracle where
  delegate := fun _ =>
    .ok { valId := 1, delegator := 0, amount := 1000, activationEpoch := 1 }
  undelegate := fun _ =>
    .ok { valId := 1, delegator := 0, withdrawal_id := 0, amount := 1000,
          activationEpoch := 1 }
  withdraw := fun _ =>
    .ok { valId := 1, delegator := 0, withdrawal_id := 0, amount := 1000,
          activationEpoch := 1 }
  claimRewards := fun _ =>
    .ok { valId := 1, delegator := 0, amount := 1000, epoch := 1 }
  validatorRewarded := fun _ =>
    .ok { validatorId := 1, from_address := 0, amount := 1000, epoch := 1 }
  epochChanged := fun _ => .ok { oldEpoch := 1, newEpoch := 2 }
  validatorCreated := fun _ =>
    .ok { validatorId := 1, authAddress := 0, commission := 5 }
  validatorStatusChanged := fun _ => .ok { validatorId := 1, flags := 1 }
  commissionChanged := fun _ =>
    .ok { validatorId := 1, oldCommission := 5, newCommission := 6 }

/-- A fully-populated live log at block `n` with the given `topic0`. -/
def mkLiveLog (n topic : Nat) : Log :=
  { block_number := some n
    block_hash := some 0
    block_timestamp := some 0
    transaction_hash := some 0
    transaction_index := some 0
    topics := [topic]
    address := 0
    data := 0 }

/-- A Delegate log at block 100, then one at block 101. -/
def liveLog1 : Log := mkLiveLog 100 SIG_DELEGATE

def liveLog2 : Log := mkLiveLog 101 SIG_DELEGATE

/-- The event `extract_event okOracle liveLog1` decodes to. -/
def liveEv1 : StakingEvent :=
  .delegate
    { val_id := 1
      delegator := hexEncode20 0
      amount := u256_to_bigdecimal 1000
      activation_epoch := 1
      block_meta :=
        { block_number := 100, block_hash := hexEncode32 0, block_timestamp := 0 }
      tx_meta := { transaction_hash := hexEncode32 0, transaction_index := 0 } }

/-- The event `extract_event okOracle liveLog2` decodes to. -/
def liveEv2 : StakingEvent :=
  .delegate
    { val_id := 1
      delegator := hexEncode20 0
      amount := u256_to_bigdecimal 1000
      activation_epoch := 1
      block_meta :=
        { block_number := 101, block_hash := hexEncode32 0, block_timestamp := 0 }
      tx_meta := { transaction_hash := hexEncode32 0, transaction_index := 0 } }

/-- A log missing its `block_number`. -/
def missingFieldLog : Log :=
  { mkLiveLog 100 SIG_DELEGATE with block_number := none }

/-- A fully-populated log with no topic at all. -/
def noTopicLog : Log := { mkLiveLog 100 SIG_DELEGATE with topics := [] }

/-- A fully-populated log whose `topic0` matches no known signature. -/
def unknownTopicLog : Log := mkLiveLog 100 1000

/-- Two Delegate events sharing a transaction hash but naming different
validators (the S3 scenario). -/
def exDelegate1 : DelegateEvent :=
  { val_id := 1
    delegator := "1234567890123456789012345678901234567890"
    amount := 1000
    activation_epoch := 1
    block_meta := { block_number := 100, block_hash := "abc1", block_timestamp := 1 }
    tx_meta := { transaction_hash := "t1", transaction_index := 0 } }

def exDelegate2 : DelegateEvent :=
  { exDelegate1 with val_id := 2 }

/-- Two ValidatorStatusChanged events sharing a transaction hash but
naming different validators. -/
def exStatus1 : ValidatorStatusChangedEvent :=
  { validator_id := 1
    flags := 1
    block_meta := { block_number := 100, block_hash := "abc1", block_timestamp := 1 }
    tx_meta := { transaction_hash := "t1", transaction_index := 0 } }

def exStatus2 : ValidatorStatusChangedEvent :=
  { exStatus1 with validator_id := 2 }

/-- Two ValidatorRewarded events sharing a transaction hash but naming
different validators. -/
def exRewarded1 : ValidatorRewardedEvent :=
  { validator_id := 1
    from_address := "f"
    amount := 7
    epoch := 1
    block_meta := { block_number := 100, block_hash := "abc1", block_timestamp := 1 }
    tx_meta := { transaction_hash := "t1", transaction_index := 0 } }

def exRewarded2 : ValidatorRewardedEvent :=
  { exRewarded1 with validator_id := 2 }

/-- A one-block sample batch carrying one Delegate event. -/
def sampleBatch : BlockBatch :=
  { block_meta := [{ block_number := 100, block_hash := "abc1", block_timestamp := 1 }]
    delegate := [exDelegate1] }

/-! ## Generic facts about `upsertRows` -/


section UpsertLemmas

variable {α κ : Type} [DecidableEq κ] (key : α → κ)

theorem upsertFold_fst_count (rows : List α) (t : List α) (n m : Nat) :
    (rows.foldl (upsertStep key) (t, n)).1 = (rows.foldl (upsertStep key) (t, m)).1 := by
  induction rows generalizing t n m with
  | nil => rfl
  | cons r rs ih =>
    simp only [List.foldl_cons, upsertStep]
    by_cases h : ((t.map key).contains (key r)) = true
    · simp only [h, if_true]
      exact ih t n m
    · simp only [h, if_false]
      exact ih (t ++ [r]) (n + 1) (m + 1)

theorem upsertFold_keys_mono (rows : List α) (t : List α) (n : Nat) (k : κ)
    (hk : k ∈ t.map key) :
    k ∈ ((rows.foldl (upsertStep key) (t, n)).1).map key := by
  induction rows generalizing t n with
  | nil => simpa using hk
  | cons r rs ih =>
    simp only [List.foldl_cons, upsertStep]
    by_cases h : ((t.map key).contains (key r)) = true
    · simp only [h, if_true]; exact ih t n hk
    · simp only [h, if_false]
      exact ih (t ++ [r]) (n + 1) (by simp [hk])

theorem upsertFold_mem_key (rows : List α) (t : List α) (n : Nat) (r : α)
    (hr : r ∈ rows) :
    key r ∈ ((rows.foldl (upsertStep key) (t, n)).1).map key := by
  induction rows generalizing t n with
  | nil => cases hr
  | cons x xs ih =>
    simp only [List.foldl_cons, upsertStep]
    rcases List.mem_cons.mp hr with h | h
    · subst h
      by_cases hc : ((t.map key).contains (key r)) = true
      · simp only [hc, if_true]
        exact upsertFold_keys_mono key xs t n _ (by simpa using hc)
      · simp only [hc, if_false]
        exact upsertFold_keys_mono key xs (t ++ [r]) (n + 1) _ (by simp)
    · by_cases hc : ((t.map key).contains (key x)) = true
      · simp only [hc, if_true]; exact ih t n h
      · simp only [hc, if_false]; exact ih (t ++ [x]) (n + 1) h

theorem upsertFold_all_dup (rows : List α) (t : List α) (n : Nat)
    (h : ∀ r ∈ rows, key r ∈ t.map key) :
    rows.foldl (upsertStep key) (t, n) = (t, n) := by
  induction rows with
  | nil => rfl
  | cons r rs ih =>
    have hr : ((t.map key).contains (key r)) = true := by
      simpa using h r (by simp)
    simp only [List.foldl_cons, upsertStep, hr, if_true]
    exact ih fun x hx => h x (by simp [hx])

theorem upsertRows_mem_key (rows t : List α) (r : α) (hr : r ∈ rows) :
    key r ∈ ((upsertRows key t rows).1).map key :=
  upsertFold_mem_key key rows t 0 r hr

theorem upsertRows_all_dup (rows t : List α)
    (h : ∀ r ∈ rows, key r ∈ t.map key) :
    upsertRows key t rows = (t, 0) :=
  upsertFold_all_dup key rows t 0 h

theorem upsertRows_cons_fst (r : α) (rs t : List α) :
    (upsertRows key t (r :: rs)).1 =
      (upsertRows key (upsertRows key t [r]).1 rs).1 := by
  simp only [upsertRows, List.foldl_cons, List.foldl_nil]
  exact upsertFold_fst_count key rs _ _ 0

theorem upsert_two_distinct (r1 r2 : α) (h : key r1 ≠ key r2) :
    upsertRows key [] [r1, r2] = ([r1, r2], 2) := by
  simp [upsertRows, upsertStep, List.foldl_cons, h, Ne.symm h]

theorem upsert_two_same (r1 r2 : α) (h : key r1 = key r2) :
    upsertRows key [] [r1, r2] = ([r1], 1) := by
  simp [upsertRows, upsertStep, List.foldl_cons, h]

end UpsertLemmas


/-! ## Facts about the chunking loop -/


theorem chunkLoop_nil_of_ge (fuel a b k : Nat) (h : b ≤ a) :
    chunkLoop fuel a b k = [] := by
  cases fuel with
  | zero => rfl
  | succ n => simp [chunkLoop, Nat.not_lt.mpr h]

theorem chunkLoop_head_start (fuel a b k : Nat) (c : RustRange)
    (rest : List RustRange) (h : chunkLoop fuel a b k = c :: rest) :
    c.start = a := by
  cases fuel with
  | zero => simp [chunkLoop] at h
  | succ n =>
    by_cases hab : a < b
    · simp only [chunkLoop, if_pos hab] at h
      obtain ⟨h1, -⟩ := List.cons_eq_cons.mp h
      rw [← h1]
    · simp [chunkLoop, hab] at h

theorem chunkLoop_cover (fuel : Nat) : ∀ (a b k : Nat), 0 < k → b - a ≤ fuel →
    (chunkLoop fuel a b k).flatMap RustRange.toList = List.range' a (b - a) := by
  induction fuel with
  | zero =>
    intro a b k hk hf
    have hba : b - a = 0 := by omega
    simp [chunkLoop, hba]
  | succ n ih =>
    intro a b k hk hf
    by_cases hab : a < b
    · simp only [chunkLoop, if_pos hab, List.flatMap_cons]
      have hm1 : a < min (a + k) b := by omega
      have hm2 : min (a + k) b ≤ b := by omega
      rw [ih (min (a + k) b) b k hk (by omega)]
      show List.range' a (min (a + k) b - a) ++ _ = _
      have h2 : List.range' (min (a + k) b) (b - min (a + k) b)
          = List.range' (a + (min (a + k) b - a)) (b - min (a + k) b) := by
        rw [Nat.add_sub_cancel' (Nat.le_of_lt hm1)]
      rw [h2, List.range'_append_1]
      congr 1
      omega
    · have hba : b - a = 0 := by omega
      simp [chunkLoop, hab, hba]

theorem chunkLoop_chain (fuel : Nat) : ∀ (a b k : Nat),
    List.Chain' (fun c d => c.stop = d.start) (chunkLoop fuel a b k) := by
  induction fuel with
  | zero => intro a b k; simp [chunkLoop]
  | succ n ih =>
    intro a b k
    by_cases hab : a < b
    · simp only [chunkLoop, if_pos hab]
      cases htail : chunkLoop n (min (a + k) b) b k with
      | nil => simp
      | cons c rest =>
        refine List.Chain'.cons ?_ (htail ▸ ih (min (a + k) b) b k)
        show min (a + k) b = c.start
        exact (chunkLoop_head_start n (min (a + k) b) b k c rest htail).symm
    · simp [chunkLoop, hab]

theorem chunkLoop_sizes (fuel : Nat) : ∀ (a b k : Nat), 0 < k →
    ∀ c ∈ chunkLoop fuel a b k, c.start < c.stop ∧ c.stop - c.start ≤ k := by
  induction fuel with
  | zero => intro a b k _ c hc; simp [chunkLoop] at hc
  | succ n ih =>
    intro a b k hk c hc
    by_cases hab : a < b
    · simp only [chunkLoop, if_pos hab] at hc
      rcases List.mem_cons.mp hc with h | h
      · subst h
        constructor
        · show a < min (a + k) b; omega
        · show min (a + k) b - a ≤ k; omega
      · exact ih (min (a + k) b) b k hk c h
    · simp [chunkLoop, hab] at hc

theorem chunkLoop_eq_spec (fuel : Nat) : ∀ (a b k : Nat), 0 < k → b - a ≤ fuel →
    chunkLoop fuel a b k = chunk_range_spec a b k := by
  induction fuel with
  | zero =>
    intro a b k hk hf
    have hba : b - a = 0 := by omega
    rw [chunkLoop_nil_of_ge 0 a b k (by omega), chunk_range_spec, hba]
    rw [Nat.div_eq_of_lt (by omega : 0 + k - 1 < k)]
    rfl
  | succ n ih =>
    intro a b k hk hf
    by_cases hab : a < b
    · by_cases hbk : b ≤ a + k
      · have hmin : min (a + k) b = b := by omega
        have hnum : (b - a + k - 1) / k = 1 := by
          refine Nat.le_antisymm ?_ ?_
          · exact Nat.lt_succ_iff.mp ((Nat.div_lt_iff_lt_mul hk).mpr (by omega))
          · exact (Nat.le_div_iff_mul_le hk).mpr (by omega)
        simp only [chunkLoop, if_pos hab, hmin,
          chunkLoop_nil_of_ge n b b k (Nat.le_refl b)]
        rw [chunk_range_spec, hnum]
        show [⟨a, b⟩] = [(⟨a + 0 * k, min (a + (0 + 1) * k) b⟩ : RustRange)]
        simp [RustRange.mk.injEq]
        omega
      · have hmin : min (a + k) b = a + k := by omega
        have hrec := ih (a + k) b k hk (by omega)
        simp only [chunkLoop, if_pos hab, hmin, hrec]
        have hnum : (b - a + k - 1) / k = (b - (a + k) + k - 1) / k + 1 := by
          have heq : b - a + k - 1 = (b - (a + k) + k - 1) + k := by omega
          rw [heq, Nat.add_div_right _ hk]
        rw [chunk_range_spec, chunk_range_spec, hnum, List.range_succ_eq_map]
        rw [List.map_cons, List.map_map]
        congr 1
        · show (⟨a, a + k⟩ : RustRange) = ⟨a + 0 * k, min (a + (0 + 1) * k) b⟩
          simp [RustRange.mk.injEq]
          omega
        · apply List.map_congr_left
          intro i _
          simp only [Function.comp_apply]
          show (⟨a + k + i * k, min (a + k + (i + 1) * k) b⟩ : RustRange)
            = ⟨a + (i + 1) * k, min (a + (i + 1 + 1) * k) b⟩
          have h1 : a + (i + 1) * k = a + k + i * k := by ring
          have h2 : a + (i + 1 + 1) * k = a + k + (i + 1) * k := by ring
          rw [h1, h2]
    · have hba : b ≤ a := by omega
      rw [chunkLoop_nil_of_ge (n + 1) a b k hba, chunk_range_spec]
      have : b - a = 0 := by omega
      rw [this, Nat.div_eq_of_lt (by omega : 0 + k - 1 < k)]
      rfl


/-! ## C6 and C10: the chunking laws and totality -/


/-- C6: for every range `[a, b)` and every chunk size `k ≥ 1`,
`chunk_range` succeeds and returns exactly the consecutive ranges
`[a, a+k), [a+k, a+2k), …` with the final chunk truncated at `b`; the
concatenation of the chunks is the input range, the chunks are contiguous
(hence non-overlapping, as each is non-empty) with size at most `k`, an
empty input yields no chunk, and an input no larger than `k` yields the
single chunk equal to the input. -/
theorem chunk_range_laws (a b k : Nat) (hk : 0 < k) (hab : a ≤ b) :
    ∃ l, chunk_range ⟨a, b⟩ k = .ok l ∧
      l = chunk_range_spec a b k ∧
      l.flatMap RustRange.toList = RustRange.toList ⟨a, b⟩ ∧
      List.Chain' (fun c d => c.stop = d.start) l ∧
      (∀ c ∈ l, c.start < c.stop ∧ c.stop - c.start ≤ k) ∧
      (a = b → l = []) ∧
      (a < b → b - a ≤ k → l = [⟨a, b⟩]) := by
  refine ⟨chunkLoop (b - a) a b k, ?_, ?_, ?_, ?_, ?_, ?_, ?_⟩
  · show chunk_range ⟨a, b⟩ k = _
    rw [chunk_range]
    simp only [checkedSub, checkedDiv, if_pos hab,
      if_neg (Nat.pos_iff_ne_zero.mp hk)]
    rfl
  · exact chunkLoop_eq_spec (b - a) a b k hk (Nat.le_refl _)
  · exact chunkLoop_cover (b - a) a b k hk (Nat.le_refl _)
  · exact chunkLoop_chain (b - a) a b k
  · exact chunkLoop_sizes (b - a) a b k hk
  · intro h
    exact chunkLoop_nil_of_ge (b - a) a b k (by omega)
  · intro hlt hle
    have hmin : min (a + k) b = b := by omega
    have h1 : b - a = (b - a - 1) + 1 := by omega
    rw [h1]
    simp only [chunkLoop, if_pos hlt, hmin,
      chunkLoop_nil_of_ge (b - a - 1) b b k (Nat.le_refl b)]

/-- Witness for C6 at the S4 scenario `chunk_range([0,105), 10)`. -/
theorem chunk_range_laws_witness :
    (0 : Nat) < 10 ∧ (0 : Nat) ≤ 105 ∧
      ∃ l, chunk_range ⟨0, 105⟩ 10 = .ok l ∧
        l = chunk_range_spec 0 105 10 ∧
        l.flatMap RustRange.toList = RustRange.toList ⟨0, 105⟩ ∧
        List.Chain' (fun c d => c.stop = d.start) l ∧
        (∀ c ∈ l, c.start < c.stop ∧ c.stop - c.start ≤ 10) ∧
        ((0 : Nat) = 105 → l = []) ∧
        ((0 : Nat) < 105 → 105 - 0 ≤ 10 → l = [⟨0, 105⟩]) :=
  ⟨by decide, by decide, chunk_range_laws 0 105 10 (by decide) (by decide)⟩

/-- C10: `chunk_range` is total exactly under `chunk_size ≥ 1` and
`start ≤ end`: with `chunk_size = 0` the capacity computation divides by
zero before any chunk is produced (when the preceding subtraction
succeeds), with `end < start` the capacity subtraction underflows, and
with `chunk_size ≥ 1` and `start ≤ end` the loop runs to completion. -/
theorem chunk_range_totality (a b k : Nat) :
    (a ≤ b → chunk_range ⟨a, b⟩ 0 = .error .divByZero) ∧
    (b < a → chunk_range ⟨a, b⟩ k = .error .underflow) ∧
    (0 < k → a ≤ b → ∃ l, chunk_range ⟨a, b⟩ k = .ok l) := by
  refine ⟨?_, ?_, ?_⟩
  · intro hab
    rw [chunk_range]
    simp only [checkedSub, checkedDiv, if_pos hab, if_pos rfl]
    rfl
  · intro hba
    rw [chunk_range]
    simp only [checkedSub, if_neg (Nat.not_le.mpr hba)]
    rfl
  · intro hk hab
    refine ⟨chunkLoop (b - a) a b k, ?_⟩
    rw [chunk_range]
    simp only [checkedSub, checkedDiv, if_pos hab,
      if_neg (Nat.pos_iff_ne_zero.mp hk)]
    rfl

/-- Witness for C10: division by zero at `chunk_range([0,5), 0)`,
underflow at `chunk_range([5,3), 10)`, success at `chunk_range([0,5), 2)`. -/
theorem chunk_range_totality_witness :
    chunk_range ⟨0, 5⟩ 0 = .error .divByZero ∧
      chunk_range ⟨5, 3⟩ 10 = .error .underflow ∧
      ∃ l, chunk_range ⟨0, 5⟩ 2 = .ok l :=
  ⟨(chunk_range_totality 0 5 0).1 (by decide),
   (chunk_range_totality 5 3 10).2.1 (by decide),
   (chunk_range_totality 0 5 2).2.2 (by decide) (by decide)⟩


/-! ## C1: the gap query, and C9: U256 fidelity -/


/-- C1 fails on the code: with stored blocks `{100, 200}` the gap query
returns the single range `Range { start: 101, end: 199 }`, i.e. the
half-open `[101, 199)` — not the `[101, 200)` the claim (and the
repository's own test `processes_non_consecutive_blocks`, which asserts
`gaps[0].end == 200`) requires: the SQL's inclusive `gap_end = next - 1`
is placed unconverted into the exclusive end of the returned range. -/
theorem get_block_gaps_off_by_one :
    get_block_gaps [100, 200] = [⟨101, 199⟩] := by decide

/-- Base-256 digit reconstruction: folding the first `n` little-endian
digits of `v` recovers `v mod 256^n`. -/
theorem from_bytes_le_digits (n : Nat) : ∀ v : Nat,
    from_bytes_le ((List.range n).map fun i => v / 256 ^ i % 256)
      = v % 256 ^ n := by
  induction n with
  | zero => intro v; simp [from_bytes_le, Nat.mod_one]
  | succ m ih =>
    intro v
    rw [List.range_succ_eq_map, List.map_cons, List.map_map]
    have hmap : (List.range m).map ((fun i => v / 256 ^ i % 256) ∘ Nat.succ)
        = (List.range m).map fun i => (v / 256) / 256 ^ i % 256 := by
      apply List.map_congr_left
      intro i _
      simp only [Function.comp_apply]
      rw [Nat.div_div_eq_div_mul, ← pow_succ']
    rw [hmap]
    show from_bytes_le ((List.range m).map fun i => (v / 256) / 256 ^ i % 256)
        * 256 + v / 256 ^ 0 % 256 = v % 256 ^ (m + 1)
    rw [ih (v / 256)]
    have hm : v % (256 * 256 ^ m) = v % 256 + 256 * (v / 256 % 256 ^ m) :=
      Nat.mod_mul
    have hp : (256 : Nat) ^ (m + 1) = 256 * 256 ^ m := by rw [pow_succ']
    rw [hp, hm]
    simp [pow_zero, Nat.div_one]
    omega

/-- C9: for every 256-bit value `v`, `u256_to_bigdecimal v` is exactly
`v` — the little-endian serialization and the `BigInt` reconstruction are
mutually inverse, so amounts and commissions survive decoding with no
precision loss. -/
theorem u256_to_bigdecimal_exact (v : Nat) (h : v < 2 ^ 256) :
    u256_to_bigdecimal v = (v : Int) := by
  rw [u256_to_bigdecimal, as_le_bytes, from_bytes_le_digits 32 v]
  have h256 : (256 : Nat) ^ 32 = 2 ^ 256 := by norm_num
  rw [Nat.mod_eq_of_lt (by rw [h256]; exact h)]
  rfl

/-- Witness for C9 at the maximum 256-bit value `2^256 - 1`. -/
theorem u256_to_bigdecimal_exact_witness :
    u256_to_bigdecimal (2 ^ 256 - 1) = ((2 ^ 256 - 1 : Nat) : Int) :=
  u256_to_bigdecimal_exact (2 ^ 256 - 1)
    (Nat.sub_lt (Nat.pos_pow_of_pos 256 (by decide)) (by decide))


/-! ## C8: decoder classification -/


/-- C8: `extract_event` errors on every log missing one of the five
envelope fields and on every known-signature log whose payload fails ABI
decoding, and returns `Ok(None)` — never an error — on every
fully-populated log whose `topic0` is absent or matches none of the nine
known signature hashes. -/
theorem extract_event_classification (dec : DecodeOracle) (log : Log) :
    ((log.block_number = none ∨ log.block_hash = none ∨
        log.block_timestamp = none ∨ log.transaction_hash = none ∨
        log.transaction_index = none) →
      ∃ msg, extract_event dec log = .error msg) ∧
    (∀ bn bh ts th ti, log.block_number = some bn → log.block_hash = some bh →
      log.block_timestamp = some ts → log.transaction_hash = some th →
      log.transaction_index = some ti →
      (log.topic0 = none → extract_event dec log = .ok none) ∧
      (∀ t, log.topic0 = some t → t ∉ knownSigs →
        extract_event dec log = .ok none) ∧
      (∀ msg,
        ((log.topic0 = some SIG_DELEGATE ∧
            dec.delegate ⟨log.address, log.data⟩ = .error msg) ∨
         (log.topic0 = some SIG_UNDELEGATE ∧
            dec.undelegate ⟨log.address, log.data⟩ = .error msg) ∨
         (log.topic0 = some SIG_WITHDRAW ∧
            dec.withdraw ⟨log.address, log.data⟩ = .error msg) ∨
         (log.topic0 = some SIG_CLAIM_REWARDS ∧
            dec.claimRewards ⟨log.address, log.data⟩ = .error msg) ∨
         (log.topic0 = some SIG_VALIDATOR_REWARDED ∧
            dec.validatorRewarded ⟨log.address, log.data⟩ = .error msg) ∨
         (log.topic0 = some SIG_EPOCH_CHANGED ∧
            dec.epochChanged ⟨log.address, log.data⟩ = .error msg) ∨
         (log.topic0 = some SIG_VALIDATOR_CREATED ∧
            dec.validatorCreated ⟨log.address, log.data⟩ = .error msg) ∨
         (log.topic0 = some SIG_VALIDATOR_STATUS_CHANGED ∧
            dec.validatorStatusChanged ⟨log.address, log.data⟩ = .error msg) ∨
         (log.topic0 = some SIG_COMMISSION_CHANGED ∧
            dec.commissionChanged ⟨log.address, log.data⟩ = .error msg)) →
        extract_event dec log = .error msg)) := by
  constructor
  · intro h
    rcases hbn : log.block_number with _ | bn
    · exact ⟨"Missing block number", by simp [extract_event, hbn]⟩
    rcases hbh : log.block_hash with _ | bh
    · exact ⟨"Missing block hash", by simp [extract_event, hbn, hbh]⟩
    rcases hts : log.block_timestamp with _ | ts
    · exact ⟨"Missing block timestamp", by simp [extract_event, hbn, hbh, hts]⟩
    rcases hth : log.transaction_hash with _ | th
    · exact ⟨"Missing transaction hash", by simp [extract_event, hbn, hbh, hts, hth]⟩
    rcases hti : log.transaction_index with _ | ti
    · exact ⟨"Missing transaction index",
        by simp [extract_event, hbn, hbh, hts, hth, hti]⟩
    rw [hbn, hbh, hts, hth, hti] at h
    simp at h
  · intro bn bh ts th ti hbn hbh hts hth hti
    refine ⟨?_, ?_, ?_⟩
    · intro ht
      simp [extract_event, hbn, hbh, hts, hth, hti, ht]
    · intro t ht hmem
      simp only [knownSigs, List.mem_cons, List.not_mem_nil, or_false] at hmem
      push_neg at hmem
      obtain ⟨h1, h2, h3, h4, h5, h6, h7, h8, h9⟩ := hmem
      simp [extract_event, hbn, hbh, hts, hth, hti, ht,
        h1, h2, h3, h4, h5, h6, h7, h8, h9]
    · intro msg h
      rcases h with ⟨ht, hd⟩ | ⟨ht, hd⟩ | ⟨ht, hd⟩ | ⟨ht, hd⟩ | ⟨ht, hd⟩ |
        ⟨ht, hd⟩ | ⟨ht, hd⟩ | ⟨ht, hd⟩ | ⟨ht, hd⟩ <;>
      simp [extract_event, hbn, hbh, hts, hth, hti, ht, hd,
        SIG_DELEGATE, SIG_UNDELEGATE, SIG_WITHDRAW, SIG_CLAIM_REWARDS,
        SIG_VALIDATOR_REWARDED, SIG_EPOCH_CHANGED, SIG_VALIDATOR_CREATED,
        SIG_VALIDATOR_STATUS_CHANGED, SIG_COMMISSION_CHANGED]



/-- Witness for C8: a log missing `block_number` errors; a topic-less or
unknown-topic fully-populated log yields `Ok(None)`; a Delegate log whose
ABI payload fails to decode propagates the decode error. -/
theorem extract_event_classification_witness :
    (∃ msg, extract_event failOracle missingFieldLog = .error msg) ∧
    extract_event failOracle noTopicLog = .ok none ∧
    extract_event failOracle unknownTopicLog = .ok none ∧
    extract_event failOracle (mkLiveLog 100 SIG_DELEGATE) = .error "decode error" :=
  ⟨(extract_event_classification failOracle missingFieldLog).1 (Or.inl rfl),
   ((extract_event_classification failOracle noTopicLog).2
      100 0 0 0 0 rfl rfl rfl rfl rfl).1 rfl,
   ((extract_event_classification failOracle unknownTopicLog).2
      100 0 0 0 0 rfl rfl rfl rfl rfl).2.1 1000 rfl (by decide),
   ((extract_event_classification failOracle (mkLiveLog 100 SIG_DELEGATE)).2
      100 0 0 0 0 rfl rfl rfl rfl rfl).2.2 "decode error" (Or.inl ⟨rfl, rfl⟩)⟩

/-! ## C4 and C5: transaction ordering, atomicity and idempotence -/


theorem foldl_applyOp_delegate (rows : List DelegateEvent) :
    ∀ st : DbState, (rows.map fun e => TxOp.ev (.delegate e)).foldl applyOp st
      = { st with delegate_events :=
            (upsertRows delegateBatchKey st.delegate_events rows).1 } := by
  induction rows with
  | nil => intro st; rfl
  | cons r rs ih =>
    intro st
    simp only [List.map_cons, List.foldl_cons]
    rw [ih]
    simp only [applyOp, insert_delegate_events_in_tx, DbState.mk.injEq,
      and_true, true_and]
    exact (upsertRows_cons_fst delegateBatchKey r rs st.delegate_events).symm

theorem foldl_applyOp_undelegate (rows : List UndelegateEvent) :
    ∀ st : DbState, (rows.map fun e => TxOp.ev (.undelegate e)).foldl applyOp st
      = { st with undelegate_events :=
            (upsertRows undelegateBatchKey st.undelegate_events rows).1 } := by
  induction rows with
  | nil => intro st; rfl
  | cons r rs ih =>
    intro st
    simp only [List.map_cons, List.foldl_cons]
    rw [ih]
    simp only [applyOp, insert_undelegate_events_in_tx, DbState.mk.injEq,
      and_true, true_and]
    exact (upsertRows_cons_fst undelegateBatchKey r rs st.undelegate_events).symm

theorem foldl_applyOp_withdraw (rows : List WithdrawEvent) :
    ∀ st : DbState, (rows.map fun e => TxOp.ev (.withdraw e)).foldl applyOp st
      = { st with withdraw_events :=
            (upsertRows withdrawBatchKey st.withdraw_events rows).1 } := by
  induction rows with
  | nil => intro st; rfl
  | cons r rs ih =>
    intro st
    simp only [List.map_cons, List.foldl_cons]
    rw [ih]
    simp only [applyOp, insert_withdraw_events_in_tx, DbState.mk.injEq,
      and_true, true_and]
    exact (upsertRows_cons_fst withdrawBatchKey r rs st.withdraw_events).symm

theorem foldl_applyOp_claim_rewards (rows : List ClaimRewardsEvent) :
    ∀ st : DbState, (rows.map fun e => TxOp.ev (.claimRewards e)).foldl applyOp st
      = { st with claim_rewards_events :=
            (upsertRows claimRewardsBatchKey st.claim_rewards_events rows).1 } := by
  induction rows with
  | nil => intro st; rfl
  | cons r rs ih =>
    intro st
    simp only [List.map_cons, List.foldl_cons]
    rw [ih]
    simp only [applyOp, insert_claim_rewards_events_in_tx, DbState.mk.injEq,
      and_true, true_and]
    exact (upsertRows_cons_fst claimRewardsBatchKey r rs st.claim_rewards_events).symm

theorem foldl_applyOp_validator_rewarded (rows : List ValidatorRewardedEvent) :
    ∀ st : DbState, (rows.map fun e => TxOp.ev (.validatorRewarded e)).foldl applyOp st
      = { st with validator_rewarded_events :=
            (upsertRows validatorRewardedBatchKey st.validator_rewarded_events rows).1 } := by
  induction rows with
  | nil => intro st; rfl
  | cons r rs ih =>
    intro st
    simp only [List.map_cons, List.foldl_cons]
    rw [ih]
    simp only [applyOp, insert_validator_rewarded_events_in_tx, DbState.mk.injEq,
      and_true, true_and]
    exact (upsertRows_cons_fst validatorRewardedBatchKey r rs st.validator_rewarded_events).symm

theorem foldl_applyOp_epoch_changed (rows : List EpochChangedEvent) :
    ∀ st : DbState, (rows.map fun e => TxOp.ev (.epochChanged e)).foldl applyOp st
      = { st with epoch_changed_events :=
            (upsertRows epochChangedBatchKey st.epoch_changed_events rows).1 } := by
  induction rows with
  | nil => intro st; rfl
  | cons r rs ih =>
    intro st
    simp only [List.map_cons, List.foldl_cons]
    rw [ih]
    simp only [applyOp, insert_epoch_changed_events_in_tx, DbState.mk.injEq,
      and_true, true_and]
    exact (upsertRows_cons_fst epochChangedBatchKey r rs st.epoch_changed_events).symm

theorem foldl_applyOp_validator_created (rows : List ValidatorCreatedEvent) :
    ∀ st : DbState, (rows.map fun e => TxOp.ev (.validatorCreated e)).foldl applyOp st
      = { st with validator_created_events :=
            (upsertRows validatorCreatedBatchKey st.validator_created_events rows).1 } := by
  induction rows with
  | nil => intro st; rfl
  | cons r rs ih =>
    intro st
    simp only [List.map_cons, List.foldl_cons]
    rw [ih]
    simp only [applyOp, insert_validator_created_events_in_tx, DbState.mk.injEq,
      and_true, true_and]
    exact (upsertRows_cons_fst validatorCreatedBatchKey r rs st.validator_created_events).symm

theorem foldl_applyOp_validator_status_changed (rows : List ValidatorStatusChangedEvent) :
    ∀ st : DbState, (rows.map fun e => TxOp.ev (.validatorStatusChanged e)).foldl applyOp st
      = { st with validator_status_changed_events :=
            (upsertRows validatorStatusChangedBatchKey st.validator_status_changed_events rows).1 } := by
  induction rows with
  | nil => intro st; rfl
  | cons r rs ih =>
    intro st
    simp only [List.map_cons, List.foldl_cons]
    rw [ih]
    simp only [applyOp, insert_validator_status_changed_events_in_tx, DbState.mk.injEq,
      and_true, true_and]
    exact (upsertRows_cons_fst validatorStatusChangedBatchKey r rs st.validator_status_changed_events).symm

theorem foldl_applyOp_commission_changed (rows : List CommissionChangedEvent) :
    ∀ st : DbState, (rows.map fun e => TxOp.ev (.commissionChanged e)).foldl applyOp st
      = { st with commission_changed_events :=
            (upsertRows commissionChangedBatchKey st.commission_changed_events rows).1 } := by
  induction rows with
  | nil => intro st; rfl
  | cons r rs ih =>
    intro st
    simp only [List.map_cons, List.foldl_cons]
    rw [ih]
    simp only [applyOp, insert_commission_changed_events_in_tx, DbState.mk.injEq,
      and_true, true_and]
    exact (upsertRows_cons_fst commissionChangedBatchKey r rs st.commission_changed_events).symm

theorem foldl_applyOp_blocks (metas : List BlockMeta) :
    ∀ st : DbState, (metas.map TxOp.blk).foldl applyOp st
      = { st with blocks := (upsertRows blockKey st.blocks metas).1 } := by
  induction metas with
  | nil => intro st; rfl
  | cons r rs ih =>
    intro st
    simp only [List.map_cons, List.foldl_cons]
    rw [ih]
    simp only [applyOp, insert_blocks_in_tx, DbState.mk.injEq,
      and_true, true_and]
    exact (upsertRows_cons_fst blockKey r rs st.blocks).symm

theorem commit_eq_foldl (st : DbState) (b : BlockBatch)
    (h : ¬ b.block_meta.isEmpty) :
    (insert_many_blocks_inner st b).1 = (txOps b).foldl applyOp st := by
  rw [txOps, txEventOps]
  simp only [List.foldl_append]
  rw [foldl_applyOp_delegate, foldl_applyOp_undelegate, foldl_applyOp_withdraw,
    foldl_applyOp_claim_rewards, foldl_applyOp_validator_rewarded,
    foldl_applyOp_epoch_changed, foldl_applyOp_validator_created,
    foldl_applyOp_validator_status_changed, foldl_applyOp_commission_changed,
    foldl_applyOp_blocks]
  simp only [insert_many_blocks_inner, if_neg h]
  rfl



/-- C4: within one `insert_blocks` transaction every event row of all
nine variants is issued before any block row (the operation sequence is
the event operations followed by the block operations, and folding it
yields exactly the committed state); a timed-out transaction is rolled
back, leaving the store exactly as it was and reporting `PoolTimedOut`;
and after a commit, every event of the submitting batch and every block
meta of the batch is present (by its conflict key) in the resulting
store — so a block row exists only if the batch's entire event set
committed with it. -/
theorem insert_blocks_atomicity :
    (∀ b : BlockBatch, ∃ evOps, txOps b = evOps ++ b.block_meta.map TxOp.blk ∧
        ∀ op ∈ evOps, op.isEv = true) ∧
    (∀ (st : DbState) (b : BlockBatch), ¬ b.block_meta.isEmpty →
        (insert_blocks st b .commit).1 = (txOps b).foldl applyOp st) ∧
    (∀ (st : DbState) (b : BlockBatch),
        insert_blocks st b .timeout = (st, .error .poolTimedOut)) ∧
    (∀ (st : DbState) (b : BlockBatch), ¬ b.block_meta.isEmpty →
      (∀ e ∈ b.delegate, delegateBatchKey e ∈
        ((insert_blocks st b .commit).1.delegate_events.map delegateBatchKey)) ∧
      (∀ e ∈ b.undelegate, undelegateBatchKey e ∈
        ((insert_blocks st b .commit).1.undelegate_events.map undelegateBatchKey)) ∧
      (∀ e ∈ b.withdraw, withdrawBatchKey e ∈
        ((insert_blocks st b .commit).1.withdraw_events.map withdrawBatchKey)) ∧
      (∀ e ∈ b.claim_rewards, claimRewardsBatchKey e ∈
        ((insert_blocks st b .commit).1.claim_rewards_events.map claimRewardsBatchKey)) ∧
      (∀ e ∈ b.validator_rewarded, validatorRewardedBatchKey e ∈
        ((insert_blocks st b .commit).1.validator_rewarded_events.map validatorRewardedBatchKey)) ∧
      (∀ e ∈ b.epoch_changed, epochChangedBatchKey e ∈
        ((insert_blocks st b .commit).1.epoch_changed_events.map epochChangedBatchKey)) ∧
      (∀ e ∈ b.validator_created, validatorCreatedBatchKey e ∈
        ((insert_blocks st b .commit).1.validator_created_events.map validatorCreatedBatchKey)) ∧
      (∀ e ∈ b.validator_status_changed, validatorStatusChangedBatchKey e ∈
        ((insert_blocks st b .commit).1.validator_status_changed_events.map validatorStatusChangedBatchKey)) ∧
      (∀ e ∈ b.commission_changed, commissionChangedBatchKey e ∈
        ((insert_blocks st b .commit).1.commission_changed_events.map commissionChangedBatchKey)) ∧
      (∀ m ∈ b.block_meta, blockKey m ∈
        ((insert_blocks st b .commit).1.blocks.map blockKey))) := by
  refine ⟨?_, ?_, ?_, ?_⟩
  · intro b
    refine ⟨txEventOps b, rfl, ?_⟩
    simp only [txEventOps, List.mem_append, List.mem_map]
    rintro op (((((((((⟨e, -, rfl⟩ | ⟨e, -, rfl⟩) | ⟨e, -, rfl⟩) | ⟨e, -, rfl⟩) |
      ⟨e, -, rfl⟩) | ⟨e, -, rfl⟩) | ⟨e, -, rfl⟩) | ⟨e, -, rfl⟩) | ⟨e, -, rfl⟩)) <;> rfl
  · intro st b h
    exact commit_eq_foldl st b h
  · intro st b
    rfl
  · intro st b h
    simp only [insert_blocks, insert_many_blocks_inner, if_neg h,
      insert_delegate_events_in_tx, insert_undelegate_events_in_tx,
      insert_withdraw_events_in_tx, insert_claim_rewards_events_in_tx,
      insert_validator_rewarded_events_in_tx, insert_epoch_changed_events_in_tx,
      insert_validator_created_events_in_tx,
      insert_validator_status_changed_events_in_tx,
      insert_commission_changed_events_in_tx, insert_blocks_in_tx]
    exact ⟨fun e he => upsertRows_mem_key _ _ _ e he,
      fun e he => upsertRows_mem_key _ _ _ e he,
      fun e he => upsertRows_mem_key _ _ _ e he,
      fun e he => upsertRows_mem_key _ _ _ e he,
      fun e he => upsertRows_mem_key _ _ _ e he,
      fun e he => upsertRows_mem_key _ _ _ e he,
      fun e he => upsertRows_mem_key _ _ _ e he,
      fun e he => upsertRows_mem_key _ _ _ e he,
      fun e he => upsertRows_mem_key _ _ _ e he,
      fun m hm => upsertRows_mem_key _ _ _ m hm⟩

/-- Witness for C4: the one-block sample batch committed into the empty
store equals the fold of its operation sequence; its timed-out submission
leaves the empty store untouched; its Delegate event's key and its block
number are present after the commit. -/
theorem insert_blocks_atomicity_witness :
    (insert_blocks {} sampleBatch .commit).1 = (txOps sampleBatch).foldl applyOp {} ∧
    insert_blocks {} sampleBatch .timeout = ({}, .error .poolTimedOut) ∧
    delegateBatchKey exDelegate1 ∈
      ((insert_blocks {} sampleBatch .commit).1.delegate_events.map delegateBatchKey) ∧
    blockKey { block_number := 100, block_hash := "abc1", block_timestamp := 1 } ∈
      ((insert_blocks {} sampleBatch .commit).1.blocks.map blockKey) :=
  ⟨insert_blocks_atomicity.2.1 {} sampleBatch (by decide),
   insert_blocks_atomicity.2.2.1 {} sampleBatch,
   (insert_blocks_atomicity.2.2.2 {} sampleBatch (by decide)).1 exDelegate1
     (by decide),
   (insert_blocks_atomicity.2.2.2 {} sampleBatch (by decide)).2.2.2.2.2.2.2.2.2
     { block_number := 100, block_hash := "abc1", block_timestamp := 1 }
     (by decide)⟩



/-- C5: submitting the same `BlockBatch` twice leaves the store exactly
as after one submission — on the second run every event row and every
block row hits its `ON CONFLICT … DO NOTHING` clause, so the state is
unchanged and every variant reports zero inserted rows. -/
theorem insert_blocks_idempotent (st : DbState) (b : BlockBatch) :
    (insert_blocks (insert_blocks st b .commit).1 b .commit).1
        = (insert_blocks st b .commit).1 ∧
    (¬ b.block_meta.isEmpty →
      (insert_blocks (insert_blocks st b .commit).1 b .commit).2
        = .ok (zeroInsertedCounts b)) := by
  by_cases h : b.block_meta.isEmpty
  · constructor
    · simp [insert_blocks, insert_many_blocks_inner, h]
    · intro hc
      exact absurd h hc
  · have hst1 : (insert_blocks st b .commit).1 =
        { delegate_events := (upsertRows delegateBatchKey st.delegate_events b.delegate).1
          undelegate_events := (upsertRows undelegateBatchKey st.undelegate_events b.undelegate).1
          withdraw_events := (upsertRows withdrawBatchKey st.withdraw_events b.withdraw).1
          claim_rewards_events := (upsertRows claimRewardsBatchKey st.claim_rewards_events b.claim_rewards).1
          validator_rewarded_events := (upsertRows validatorRewardedBatchKey st.validator_rewarded_events b.validator_rewarded).1
          epoch_changed_events := (upsertRows epochChangedBatchKey st.epoch_changed_events b.epoch_changed).1
          validator_created_events := (upsertRows validatorCreatedBatchKey st.validator_created_events b.validator_created).1
          validator_status_changed_events := (upsertRows validatorStatusChangedBatchKey st.validator_status_changed_events b.validator_status_changed).1
          commission_changed_events := (upsertRows commissionChangedBatchKey st.commission_changed_events b.commission_changed).1
          blocks := (upsertRows blockKey st.blocks b.block_meta).1 } := by
      simp only [insert_blocks, insert_many_blocks_inner, if_neg h]
      rfl
    set st1 := (insert_blocks st b .commit).1 with hdef
    have hdel : upsertRows delegateBatchKey st1.delegate_events b.delegate
        = (st1.delegate_events, 0) :=
      upsertRows_all_dup _ _ _ fun r hr => by
        rw [hst1]; exact upsertRows_mem_key _ _ _ r hr
    have hund : upsertRows undelegateBatchKey st1.undelegate_events b.undelegate
        = (st1.undelegate_events, 0) :=
      upsertRows_all_dup _ _ _ fun r hr => by
        rw [hst1]; exact upsertRows_mem_key _ _ _ r hr
    have hwit : upsertRows withdrawBatchKey st1.withdraw_events b.withdraw
        = (st1.withdraw_events, 0) :=
      upsertRows_all_dup _ _ _ fun r hr => by
        rw [hst1]; exact upsertRows_mem_key _ _ _ r hr
    have hcla : upsertRows claimRewardsBatchKey st1.claim_rewards_events b.claim_rewards
        = (st1.claim_rewards_events, 0) :=
      upsertRows_all_dup _ _ _ fun r hr => by
        rw [hst1]; exact upsertRows_mem_key _ _ _ r hr
    have hrew : upsertRows validatorRewardedBatchKey st1.validator_rewarded_events b.validator_rewarded
        = (st1.validator_rewarded_events, 0) :=
      upsertRows_all_dup _ _ _ fun r hr => by
        rw [hst1]; exact upsertRows_mem_key _ _ _ r hr
    have hepo : upsertRows epochChangedBatchKey st1.epoch_changed_events b.epoch_changed
        = (st1.epoch_changed_events, 0) :=
      upsertRows_all_dup _ _ _ fun r hr => by
        rw [hst1]; exact upsertRows_mem_key _ _ _ r hr
    have hcre : upsertRows validatorCreatedBatchKey st1.validator_created_events b.validator_created
        = (st1.validator_created_events, 0) :=
      upsertRows_all_dup _ _ _ fun r hr => by
        rw [hst1]; exact upsertRows_mem_key _ _ _ r hr
    have hsta : upsertRows validatorStatusChangedBatchKey st1.validator_status_changed_events b.validator_status_changed
        = (st1.validator_status_changed_events, 0) :=
      upsertRows_all_dup _ _ _ fun r hr => by
        rw [hst1]; exact upsertRows_mem_key _ _ _ r hr
    have hcom : upsertRows commissionChangedBatchKey st1.commission_changed_events b.commission_changed
        = (st1.commission_changed_events, 0) :=
      upsertRows_all_dup _ _ _ fun r hr => by
        rw [hst1]; exact upsertRows_mem_key _ _ _ r hr
    have hblk : upsertRows blockKey st1.blocks b.block_meta
        = (st1.blocks, 0) :=
      upsertRows_all_dup _ _ _ fun r hr => by
        rw [hst1]; exact upsertRows_mem_key _ _ _ r hr
    constructor
    · show (insert_blocks st1 b .commit).1 = st1
      simp only [insert_blocks, insert_many_blocks_inner, if_neg h,
        insert_delegate_events_in_tx, insert_undelegate_events_in_tx,
        insert_withdraw_events_in_tx, insert_claim_rewards_events_in_tx,
        insert_validator_rewarded_events_in_tx, insert_epoch_changed_events_in_tx,
        insert_validator_created_events_in_tx,
        insert_validator_status_changed_events_in_tx,
        insert_commission_changed_events_in_tx, insert_blocks_in_tx,
        hdel, hund, hwit, hcla, hrew, hepo, hcre, hsta, hcom, hblk]
    · intro _
      show (insert_blocks st1 b .commit).2 = .ok (zeroInsertedCounts b)
      simp only [insert_blocks, insert_many_blocks_inner, if_neg h,
        insert_delegate_events_in_tx, insert_undelegate_events_in_tx,
        insert_withdraw_events_in_tx, insert_claim_rewards_events_in_tx,
        insert_validator_rewarded_events_in_tx, insert_epoch_changed_events_in_tx,
        insert_validator_created_events_in_tx,
        insert_validator_status_changed_events_in_tx,
        insert_commission_changed_events_in_tx, insert_blocks_in_tx,
        hdel, hund, hwit, hcla, hrew, hepo, hcre, hsta, hcom, hblk,
        zeroInsertedCounts]

/-- Witness for C5 at the one-block sample batch over the empty store. -/
theorem insert_blocks_idempotent_witness :
    (insert_blocks (insert_blocks {} sampleBatch .commit).1 sampleBatch .commit).1
        = (insert_blocks {} sampleBatch .commit).1 ∧
    (insert_blocks (insert_blocks {} sampleBatch .commit).1 sampleBatch .commit).2
        = .ok (zeroInsertedCounts sampleBatch) :=
  ⟨(insert_blocks_idempotent {} sampleBatch).1,
   (insert_blocks_idempotent {} sampleBatch).2 (by decide)⟩

/-! ## C3: the conflict keys of the two insert paths -/


/-- C3 fails on the code: on the single-insert path of
src/db/repository.rs the conflict key of `insert_delegate_event` is
`transaction_hash` alone, so the second of two Delegates with different
`val_id` but the same transaction hash inserts zero rows — the claim
demands that both insert on every path. -/
theorem insert_delegate_event_single_path_key :
    insert_delegate_event (insert_delegate_event [] exDelegate1).1 exDelegate2
      = ([exDelegate1], 0) := by decide

/-- C3 amended: the claimed conflict keys hold on the batch path
(`insert_*_events_in_tx`): `(val_id, transaction_hash)` for the Delegate
family — two Delegates differing in `val_id` with equal transaction hash
both insert, and a re-submitted row inserts nothing — `(transaction_hash)`
alone for the ValidatorRewarded family, and
`(validator_id, transaction_hash)` for the status/commission family;
whereas on the single-insert path of repository.rs the key is
`(transaction_hash)` alone for every variant, so there the second
Delegate (or ValidatorStatusChanged) sharing only a transaction hash
inserts zero rows. -/
theorem conflict_keys_per_path :
    (∀ d1 d2 : DelegateEvent,
      d1.tx_meta.transaction_hash = d2.tx_meta.transaction_hash →
      d1.val_id ≠ d2.val_id →
      (insert_delegate_events_in_tx [] [d1, d2]).2.1 = 2 ∧
      (insert_delegate_event (insert_delegate_event [] d1).1 d2).2 = 0) ∧
    (∀ (e : DelegateEvent) (table : List DelegateEvent),
      delegateBatchKey e ∈ table.map delegateBatchKey →
      (insert_delegate_events_in_tx table [e]).2.1 = 0) ∧
    (∀ r1 r2 : ValidatorRewardedEvent,
      r1.tx_meta.transaction_hash = r2.tx_meta.transaction_hash →
      (insert_validator_rewarded_events_in_tx [] [r1, r2]).2.1 = 1) ∧
    (∀ s1 s2 : ValidatorStatusChangedEvent,
      s1.tx_meta.transaction_hash = s2.tx_meta.transaction_hash →
      s1.validator_id ≠ s2.validator_id →
      (insert_validator_status_changed_events_in_tx [] [s1, s2]).2.1 = 2 ∧
      (insert_validator_status_changed_event
        (insert_validator_status_changed_event [] s1).1 s2).2 = 0) := by
  refine ⟨?_, ?_, ?_, ?_⟩
  · intro d1 d2 htx hval
    have hk : delegateBatchKey d1 ≠ delegateBatchKey d2 := fun hk =>
      hval (congrArg Prod.fst hk)
    constructor
    · simp [insert_delegate_events_in_tx,
        upsert_two_distinct delegateBatchKey d1 d2 hk]
    · have h1 : insert_delegate_event [] d1 = ([d1], 1) := by
        simp [insert_delegate_event, upsertRows, upsertStep]
      rw [h1]
      show (upsertRows (fun e => e.tx_meta.transaction_hash) [d1] [d2]).2 = 0
      rw [upsertRows_all_dup _ _ _ fun r hr => by
        rw [List.mem_singleton.mp hr]
        simp [← htx]]
  · intro e table hmem
    show (upsertRows delegateBatchKey table [e]).2 = 0
    rw [upsertRows_all_dup _ _ _ fun r hr => by
      rw [List.mem_singleton.mp hr]; exact hmem]
  · intro r1 r2 htx
    simp [insert_validator_rewarded_events_in_tx,
      upsert_two_same validatorRewardedBatchKey r1 r2 htx]
  · intro s1 s2 htx hval
    have hk : validatorStatusChangedBatchKey s1
        ≠ validatorStatusChangedBatchKey s2 := fun hk =>
      hval (congrArg Prod.fst hk)
    constructor
    · simp [insert_validator_status_changed_events_in_tx,
        upsert_two_distinct validatorStatusChangedBatchKey s1 s2 hk]
    · have h1 : insert_validator_status_changed_event [] s1 = ([s1], 1) := by
        simp [insert_validator_status_changed_event, upsertRows, upsertStep]
      rw [h1]
      show (upsertRows (fun e => e.tx_meta.transaction_hash) [s1] [s2]).2 = 0
      rw [upsertRows_all_dup _ _ _ fun r hr => by
        rw [List.mem_singleton.mp hr]
        simp [← htx]]

/-- Witness for the amended C3, at the S3 events `val_id ∈ {1,2}`,
`tx = "t1"`. -/
theorem conflict_keys_per_path_witness :
    (insert_delegate_events_in_tx [] [exDelegate1, exDelegate2]).2.1 = 2 ∧
    (insert_delegate_event (insert_delegate_event [] exDelegate1).1 exDelegate2).2 = 0 ∧
    (insert_delegate_events_in_tx [exDelegate1] [exDelegate1]).2.1 = 0 ∧
    (insert_validator_rewarded_events_in_tx [] [exRewarded1, exRewarded2]).2.1 = 1 ∧
    (insert_validator_status_changed_events_in_tx [] [exStatus1, exStatus2]).2.1 = 2 ∧
    (insert_validator_status_changed_event
      (insert_validator_status_changed_event [] exStatus1).1 exStatus2).2 = 0 :=
  ⟨(conflict_keys_per_path.1 exDelegate1 exDelegate2 rfl (by decide)).1,
   (conflict_keys_per_path.1 exDelegate1 exDelegate2 rfl (by decide)).2,
   conflict_keys_per_path.2.1 exDelegate1 [exDelegate1] (by decide),
   conflict_keys_per_path.2.2.1 exRewarded1 exRewarded2 rfl,
   (conflict_keys_per_path.2.2.2 exStatus1 exStatus2 rfl (by decide)).1,
   (conflict_keys_per_path.2.2.2 exStatus1 exStatus2 rfl (by decide)).2⟩

/-! ## C2: the unsealed block across reconnects -/


/-- A batch contains any event just pushed into it. -/
theorem containsEvent_add_event (b : BlockBatch) (e : StakingEvent) :
    (b.add_event e).containsEvent e = true := by
  cases e <;> simp [BlockBatch.add_event, BlockBatch.containsEvent]

/-- C2 fails on the code: the live-ingestor state is declared outside the
reconnection loop (src/main.rs:178-186), so after the single-event
session `[liveLog1]` terminates, the block-100 event is still buffered,
and during the next session the block-101 event seals it into a batch
that is handed to the DbWriter — the buffered event of the terminated
session is not discarded. -/
theorem live_buffer_not_discarded :
    (process_live_blocks okOracle 1 none [[liveLog1]]).2.sent = [] ∧
    (process_live_blocks okOracle 1 none [[liveLog1]]).1.current_block_buffer
      = [liveEv1] ∧
    ((process_live_blocks okOracle 1 none [[liveLog1], [liveLog2]]).2.sent.any
      fun b => b.containsEvent liveEv1) = true := by
  refine ⟨by decide, by decide, by decide⟩

/-- C2 amended: on reconnect the currently-accumulating unsealed block is
retained, not discarded — `current_block_meta` and `current_block_buffer`
persist across stream sessions, and as soon as a later session delivers
an event of a different block number the buffered events are sealed into
a batch handed to the DbWriter. -/
theorem live_unsealed_block_retained (dec : DecodeOracle) (l1 l2 : Log)
    (e1 e2 : StakingEvent)
    (h1 : extract_event dec l1 = .ok (some e1))
    (h2 : extract_event dec l2 = .ok (some e2))
    (hne : e1.block_meta.block_number ≠ e2.block_meta.block_number) :
    (process_live_blocks dec 1 none [[l1]]).1.current_block_buffer = [e1] ∧
    (process_live_blocks dec 1 none [[l1]]).2.sent = [] ∧
    ∃ b ∈ (process_live_blocks dec 1 none [[l1], [l2]]).2.sent,
      b.containsEvent e1 = true := by
  have hrun1 : process_live_blocks dec 1 none [[l1]]
      = ({ current_block_buffer := [e1]
           current_block_meta := some e1.block_meta
           batch := BlockBatch.new
           block_count := 0
           start_block := none }, { sent := [], gaps := [] }) := by
    simp only [process_live_blocks, List.foldl_cons, List.foldl_nil,
      runSession, stepLog, h1]
    rfl
  have hrun2 : (process_live_blocks dec 1 none [[l1], [l2]]).2.sent
      = [(BlockBatch.new.add_block_meta e1.block_meta).add_event e1] := by
    simp only [process_live_blocks, List.foldl_cons, List.foldl_nil,
      runSession, stepLog, h1, h2]
    simp [stepEvent, hne]
    rfl
  exact ⟨by rw [hrun1], by rw [hrun1],
    ⟨(BlockBatch.new.add_block_meta e1.block_meta).add_event e1,
      by rw [hrun2]; exact List.mem_singleton.mpr rfl,
      containsEvent_add_event _ _⟩⟩

/-- Witness for the amended C2, at the concrete Delegate logs of blocks
100 and 101. -/
theorem live_unsealed_block_retained_witness :
    (process_live_blocks okOracle 1 none [[liveLog1]]).1.current_block_buffer
      = [liveEv1] ∧
    (process_live_blocks okOracle 1 none [[liveLog1]]).2.sent = [] ∧
    ∃ b ∈ (process_live_blocks okOracle 1 none [[liveLog1], [liveLog2]]).2.sent,
      b.containsEvent liveEv1 = true :=
  live_unsealed_block_retained okOracle liveLog1 liveLog2 liveEv1 liveEv2
    rfl rfl (by decide)

/-! ## C7: the startup gap is pushed once and latched -/


section LiveLemmas

variable (dec : DecodeOracle) (bs : Nat)

theorem stepEvent_start_none (acc : LiveState × LiveOutputs) (e : StakingEvent) :
    (stepEvent bs acc e).1.start_block = none := by
  simp only [stepEvent]
  split <;> rfl

theorem stepEvent_gaps_none (acc : LiveState × LiveOutputs) (e : StakingEvent)
    (h : acc.1.start_block = none) :
    (stepEvent bs acc e).2.gaps = acc.2.gaps := by
  simp only [stepEvent, h]
  split <;> rfl

theorem stepEvent_gaps_some (acc : LiveState × LiveOutputs) (e : StakingEvent)
    (s : Nat) (h : acc.1.start_block = some s) :
    (stepEvent bs acc e).2.gaps = acc.2.gaps ++
      (if s < e.block_meta.block_number
        then [(⟨s, e.block_meta.block_number⟩ : RustRange)] else []) := by
  by_cases hlt : s < e.block_meta.block_number
  · simp only [stepEvent, h, if_pos hlt]
    split <;> rfl
  · simp only [stepEvent, h, if_neg hlt, List.append_nil]
    split <;> rfl

theorem stepLog_no_event (acc : LiveState × LiveOutputs) (log : Log)
    (h : extractedEvent dec log = none) :
    stepLog dec bs acc log = acc := by
  cases hx : extract_event dec log with
  | error msg => simp [stepLog, hx]
  | ok v =>
    cases v with
    | none => simp [stepLog, hx]
    | some e => simp [extractedEvent, hx] at h

theorem stepLog_event (acc : LiveState × LiveOutputs) (log : Log)
    (e : StakingEvent) (h : extractedEvent dec log = some e) :
    stepLog dec bs acc log = stepEvent bs acc e := by
  cases hx : extract_event dec log with
  | error msg => simp [extractedEvent, hx] at h
  | ok v =>
    cases v with
    | none => simp [extractedEvent, hx] at h
    | some e0 =>
      have : e0 = e := by simpa [extractedEvent, hx] using h
      subst this
      simp [stepLog, hx]

theorem runSession_start_none (logs : List Log) :
    ∀ acc : LiveState × LiveOutputs, acc.1.start_block = none →
      (runSession dec bs acc logs).2.gaps = acc.2.gaps ∧
      (runSession dec bs acc logs).1.start_block = none := by
  induction logs with
  | nil => intro acc h; exact ⟨rfl, h⟩
  | cons l ls ih =>
    intro acc h
    cases hx : extractedEvent dec l with
    | none =>
      rw [runSession, List.foldl_cons, stepLog_no_event dec bs acc l hx]
      exact ih acc h
    | some e =>
      rw [runSession, List.foldl_cons, stepLog_event dec bs acc l e hx]
      have h2 := ih (stepEvent bs acc e) (stepEvent_start_none bs acc e)
      exact ⟨h2.1.trans (stepEvent_gaps_none bs acc e h), h2.2⟩

theorem runAll_start_none (sessions : List (List Log)) :
    ∀ acc : LiveState × LiveOutputs, acc.1.start_block = none →
      ((sessions.foldl (runSession dec bs) acc).2.gaps = acc.2.gaps ∧
       (sessions.foldl (runSession dec bs) acc).1.start_block = none) := by
  induction sessions with
  | nil => intro acc h; exact ⟨rfl, h⟩
  | cons sess rest ih =>
    intro acc h
    rw [List.foldl_cons]
    have hs := runSession_start_none dec bs sess acc h
    have hr := ih (runSession dec bs acc sess) hs.2
    exact ⟨hr.1.trans hs.1, hr.2⟩

theorem runSession_no_events (logs : List Log) :
    ∀ acc : LiveState × LiveOutputs,
      logs.filterMap (extractedEvent dec) = [] →
      runSession dec bs acc logs = acc := by
  induction logs with
  | nil => intro acc _; rfl
  | cons l ls ih =>
    intro acc h
    cases hx : extractedEvent dec l with
    | none =>
      rw [List.filterMap_cons, hx] at h
      rw [runSession, List.foldl_cons, stepLog_no_event dec bs acc l hx]
      exact ih acc h
    | some e =>
      rw [List.filterMap_cons, hx] at h
      cases h

theorem runSession_first_event (logs : List Log) :
    ∀ (acc : LiveState × LiveOutputs) (s : Nat) (e : StakingEvent)
      (rest' : List StakingEvent),
      logs.filterMap (extractedEvent dec) = e :: rest' →
      acc.1.start_block = some s →
      (runSession dec bs acc logs).2.gaps = acc.2.gaps ++
        (if s < e.block_meta.block_number
          then [(⟨s, e.block_meta.block_number⟩ : RustRange)] else []) ∧
      (runSession dec bs acc logs).1.start_block = none := by
  induction logs with
  | nil => intro acc s e rest' h _; cases h
  | cons l ls ih =>
    intro acc s e rest' h hs
    cases hx : extractedEvent dec l with
    | none =>
      rw [List.filterMap_cons, hx] at h
      rw [runSession, List.foldl_cons, stepLog_no_event dec bs acc l hx]
      exact ih acc s e rest' h hs
    | some e0 =>
      rw [List.filterMap_cons, hx] at h
      have he : e0 = e := (List.cons_eq_cons.mp h).1
      subst he
      rw [runSession, List.foldl_cons, stepLog_event dec bs acc l e0 hx]
      have h2 := runSession_start_none dec bs ls (stepEvent bs acc e0)
        (stepEvent_start_none bs acc e0)
      exact ⟨h2.1.trans (stepEvent_gaps_some bs acc e0 s hs), h2.2⟩

theorem runAll_startup (sessions : List (List Log)) :
    ∀ (acc : LiveState × LiveOutputs) (s : Nat),
      acc.1.start_block = some s →
      ((sessions.foldl (runSession dec bs) acc).2.gaps = acc.2.gaps ++
        (match (sessions.flatten.filterMap (extractedEvent dec)).head? with
         | none => []
         | some e => if s < e.block_meta.block_number
             then [(⟨s, e.block_meta.block_number⟩ : RustRange)] else [])) ∧
      ((sessions.foldl (runSession dec bs) acc).1.start_block =
        (match (sessions.flatten.filterMap (extractedEvent dec)).head? with
         | none => some s
         | some _ => none)) := by
  induction sessions with
  | nil => intro acc s h; exact ⟨(List.append_nil _).symm, h⟩
  | cons sess rest ih =>
    intro acc s h
    rw [List.foldl_cons]
    cases hx : sess.filterMap (extractedEvent dec) with
    | nil =>
      rw [runSession_no_events dec bs sess acc hx]
      have := ih acc s h
      simpa [List.filterMap_append, hx] using this
    | cons e rest' =>
      have hfe := runSession_first_event dec bs sess acc s e rest' hx h
      have hnone := runAll_start_none dec bs rest (runSession dec bs acc sess)
        hfe.2
      constructor
      · rw [hnone.1, hfe.1]
        simp [List.filterMap_append, hx]
      · rw [hnone.2]
        simp [List.filterMap_append, hx]

end LiveLemmas

/-- C7: with `start_block = Some s`, the whole run pushes onto the gap
queue exactly one startup range `[s, n)` — when the first decoded live
event's block number `n` exceeds `s` — and nothing otherwise; and
`start_block` is latched to `None` by the first decoded event of the run,
so no later event can push another startup range. -/
theorem startup_gap_once (dec : DecodeOracle) (bs s : Nat)
    (sessions : List (List Log)) :
    ((process_live_blocks dec bs (some s) sessions).2.gaps =
      (match (decodedEvents dec sessions).head? with
       | none => []
       | some e => if s < e.block_meta.block_number
           then [(⟨s, e.block_meta.block_number⟩ : RustRange)] else [])) ∧
    ((process_live_blocks dec bs (some s) sessions).1.start_block =
      (match (decodedEvents dec sessions).head? with
       | none => some s
       | some _ => none)) := by
  have h := runAll_startup dec bs sessions
    ({ start_block := some s }, {}) s rfl
  simpa [process_live_blocks, decodedEvents] using h

end MonadStakingIndexer
